import Mathlib

/-!
# tiny-db: write path (WAL writer, skip list, arena)

Shallow embedding of `db/log_format.h`, `db/log_writer.{h,cc}`, `db/skiplist.h`,
`util/random.h` and `util/arena.{h,cc}`, followed by the properties established
about them.

Conventions of the embedding

* C++ `int` values are `Int`, `size_t` / `uint32_t` / `uint64_t` values are `Nat`
  with an explicit `% 2 ^ w` where a conversion or wrap-around can occur.
* A byte is a `Nat`; a `Slice` is the list of its bytes (`data()` is the list,
  `size()` its length).  A `const char*` into a slice is the list of bytes from
  the pointer to the end of the slice, so `ptr += n` is `ptr.drop n`.
* `assert` is modelled as enabled (the sources include `<cassert>` and never
  define `NDEBUG`): a failing assertion ends the run with `assertFailed`.
* Loops that the source writes as `while (true)` / `do ... while` take a fuel
  argument; running out of fuel is reported as `outOfFuel`, never as a result.
-/

namespace tinydb

/-! ## Outcome of running a routine -/

/-- Outcome of a run: a returned value, a failed `assert`, an access the
language leaves undefined (null or out-of-bounds), or exhausted fuel. -/
inductive Run (α : Type) where
  | returned (a : α)
  | assertFailed
  | undefined
  | outOfFuel
deriving DecidableEq, Repr

/-- Sequencing of runs: the first outcome that is not a return ends the run. -/
def Run.bind {α β : Type} (r : Run α) (f : α → Run β) : Run β :=
  match r with
  | .returned a => f a
  | .assertFailed => .assertFailed
  | .undefined => .undefined
  | .outOfFuel => .outOfFuel

instance : Monad Run where
  pure := Run.returned
  bind := Run.bind

/-! ## include/tinydb/status.h -/

/-- The value type `Status`: success, or an error code with its message. -/
inductive Status where
  | OK
  | NotFound (msg : String)
  | Corruption (msg : String)
  | NotSupported (msg : String)
  | InvalidArgument (msg : String)
  | IOError (msg : String)
deriving DecidableEq, Repr

/-- Embeds `Status::ok()`: true iff the status indicates success. -/
def Status.ok : Status → Bool
  | .OK => true
  | _ => false

/-! ## include/tinydb/env.h : WritableFile -/

/-- The abstract class `WritableFile`, restricted to the one virtual method the
writer calls.  `σ` is the state of the concrete file; `Append` returns the
status reported by the sink and the state of the sink afterwards. -/
structure WritableFile (σ : Type) where
  Append : σ → List Nat → Status × σ

/-! ## db/log_format.h -/

/-- The enumeration `RecordType` (the last enumerator is spelt as in the source). -/
inductive RecordType where
  | kZeroType
  | kFullType
  | kFirstType
  | kMiddleType
  | kLastTyep
deriving DecidableEq, Repr

/-- Numeric value of each enumerator. -/
def RecordType.toInt : RecordType → Int
  | .kZeroType => 0
  | .kFullType => 1
  | .kFirstType => 2
  | .kMiddleType => 3
  | .kLastTyep => 4

/-- Constant `kMaxRecordType = kLastTyep`. -/
def kMaxRecordType : Int := RecordType.kLastTyep.toInt

/-- Constant `kBlockSize = 32768`. -/
def kBlockSize : Int := 32768

/-- Constant `kHeaderSize`: checksum (4 bytes), length (2 bytes), type (1 byte). -/
def kHeaderSize : Int := 4 + 2 + 1

/-! ## db/log_writer.h, db/log_writer.cc -/

/-- Data members of `log::Writer`.  `type_crc_` has `kMaxRecordType + 1` slots;
no code in the repository reads or writes it. -/
structure Writer (σ : Type) where
  dest_ : σ
  block_offset_ : Int
  type_crc_ : List Nat
deriving DecidableEq, Repr

/-- Embeds `Writer::Writer(WritableFile* dest)`.  The body is empty and there is
no member initialiser, so every member keeps the indeterminate value `raw` that
the storage held before construction. -/
def Writer.ctor {σ : Type} (raw : Writer σ) (_dest : σ) : Writer σ :=
  raw

/-- Embeds `Writer::Writer(WritableFile* dest, uint64_t dest_length)`.  The body
is empty and there is no member initialiser: `raw` is returned unchanged. -/
def Writer.ctorLength {σ : Type} (raw : Writer σ) (_dest : σ) (_dest_length : Nat) :
    Writer σ :=
  raw

/-- Signature of `EmitPhysicalRecord(type, ptr, length)` as a state transformer
on the writer: status returned and writer afterwards. -/
abbrev EmitFn (σ : Type) : Type :=
  Writer σ → RecordType → List Nat → Nat → Status × Writer σ

/-- Embeds `Writer::EmitPhysicalRecord`: the body is `return Status::OK();`.
Nothing is appended to `dest_` and `block_offset_` is not advanced. -/
def Writer.EmitPhysicalRecord {σ : Type} : EmitFn σ :=
  fun w _type _ptr _length => (Status.OK, w)

/-- One call of `EmitPhysicalRecord` as seen from `AddRecord` (bookkeeping of the
embedding, not program state): the block offset when the call is made, its three
arguments and the status it returned. -/
structure Emission where
  block_offset : Int
  type : RecordType
  ptr : List Nat
  length : Nat
  result : Status
deriving DecidableEq, Repr

/-- Bytes of the fragment handed to `EmitPhysicalRecord`: `ptr[0 .. length)`. -/
def Emission.fragment (e : Emission) : List Nat :=
  e.ptr.take e.length

/-- Control state of the `do ... while` loop of `AddRecord`. -/
inductive Pc where
  | running
  | returned
  | assertFailed
deriving DecidableEq, Repr

/-- Local variables of `AddRecord` together with the writer itself (`self`),
the control state and the log of `EmitPhysicalRecord` calls made so far. -/
structure AddRecordState (σ : Type) where
  self : Writer σ
  ptr : List Nat
  left : Nat
  s : Status
  begin : Bool
  pc : Pc
  emitted : List Emission

/-- The string literal of six zero bytes used for padding. -/
def zeroPad : List Nat := [0, 0, 0, 0, 0, 0]

/-- The statement `if (leftover < kHeaderSize) { ... }` of the loop body, with
`leftover = kBlockSize - block_offset_`: the rest of the block is filled with
`leftover` zero bytes (when there are any) and the block offset is reset.  The
status returned by `Append` is discarded, as in the source. -/
def Writer.padBlock {σ : Type} (F : WritableFile σ) (w : Writer σ) : Writer σ :=
  let leftover : Int := kBlockSize - w.block_offset_
  if leftover < kHeaderSize then
    { w with
      dest_ := if leftover > 0 then (F.Append w.dest_ (zeroPad.take leftover.toNat)).2
        else w.dest_
      block_offset_ := 0 }
  else w

/-- The local `avail`: the `int` value `kBlockSize - block_offset_ - kHeaderSize`
converted to `size_t`. -/
def Writer.avail {σ : Type} (w : Writer σ) : Nat :=
  ((kBlockSize - w.block_offset_ - kHeaderSize) % 2 ^ 64).toNat

/-- The local `fragment_length`: `(left < avail) ? left : avail`. -/
def fragmentLength (left avail : Nat) : Nat :=
  if left < avail then left else avail

/-- The `if / else if` chain choosing the record type from `begin` and `end`. -/
def chooseType (begin end_ : Bool) : RecordType :=
  if begin && end_ then RecordType.kFullType
  else if begin then RecordType.kFirstType
  else if end_ then RecordType.kLastTyep
  else RecordType.kMiddleType

/-- Second half of the loop body, from the computation of `avail` to the loop
condition `s.ok() && left > 0` (stored in `pc`); `w1` is the writer after the
padding step and `emit` the callee `EmitPhysicalRecord`. -/
def AddRecordEmit {σ : Type} (emit : EmitFn σ) (w1 : Writer σ) (st : AddRecordState σ) :
    AddRecordState σ :=
  let fragment_length : Nat := fragmentLength st.left w1.avail
  let type : RecordType := chooseType st.begin (st.left == fragment_length)
  let r := emit w1 type st.ptr fragment_length
  { self := r.2
    ptr := st.ptr.drop fragment_length
    left := st.left - fragment_length
    s := r.1
    begin := false
    pc := if r.1.ok && decide (st.left - fragment_length > 0) then Pc.running
      else Pc.returned
    emitted := st.emitted ++ [⟨w1.block_offset_, type, st.ptr, fragment_length, r.1⟩] }

/-- One iteration of the `do ... while` loop of `AddRecord`: the assertion
`leftover >= 0`, the padding step, the assertion
`kBlockSize - block_offset_ - kHeaderSize >= 0`, then the emission.
`leftover` is an `int`: when the exact difference `kBlockSize - block_offset_`
exceeds `INT_MAX` the subtraction overflows, the wrapped value is negative and
the assertion `leftover >= 0` fails as well. -/
def AddRecordBody {σ : Type} (F : WritableFile σ) (emit : EmitFn σ)
    (st : AddRecordState σ) : AddRecordState σ :=
  if kBlockSize - st.self.block_offset_ < 0 ∨ 2147483647 < kBlockSize - st.self.block_offset_
  then { st with pc := Pc.assertFailed }
  else if kBlockSize - (st.self.padBlock F).block_offset_ - kHeaderSize < 0 then
    { st with self := st.self.padBlock F, pc := Pc.assertFailed }
  else AddRecordEmit emit (st.self.padBlock F) st

/-- The loop of `AddRecord`: at most `fuel` iterations of the body, stopping as
soon as the control state is no longer `running`. -/
def AddRecordLoop {σ : Type} (F : WritableFile σ) (emit : EmitFn σ) :
    Nat → AddRecordState σ → AddRecordState σ
  | 0, st => st
  | fuel + 1, st =>
    match st.pc with
    | Pc.running => AddRecordLoop F emit fuel (AddRecordBody F emit st)
    | _ => st

/-- State on entry to the loop: `ptr = slice.data()`, `left = slice.size()`,
`Status s;` (OK), `begin = true`. -/
def AddRecordInit {σ : Type} (w : Writer σ) (slice : List Nat) : AddRecordState σ :=
  { self := w, ptr := slice, left := slice.length, s := Status.OK, begin := true,
    pc := Pc.running, emitted := [] }

/-- State reached by `AddRecord` after at most `fuel` loop iterations, for a
given callee `emit`. -/
def AddRecordRun {σ : Type} (F : WritableFile σ) (emit : EmitFn σ) (w : Writer σ)
    (slice : List Nat) (fuel : Nat) : AddRecordState σ :=
  AddRecordLoop F emit fuel (AddRecordInit w slice)

/-- Outcome of `AddRecord` for a given callee `emit`: the returned status and the
writer afterwards when the loop has been left within `fuel` iterations. -/
def AddRecordWith {σ : Type} (F : WritableFile σ) (emit : EmitFn σ) (w : Writer σ)
    (slice : List Nat) (fuel : Nat) : Run (Status × Writer σ) :=
  let st := AddRecordRun F emit w slice fuel
  match st.pc with
  | Pc.returned => Run.returned (st.s, st.self)
  | Pc.assertFailed => Run.assertFailed
  | Pc.running => Run.outOfFuel

/-- Embeds `Writer::AddRecord`: the loop with the callee of the source. -/
def Writer.AddRecord {σ : Type} (F : WritableFile σ) (w : Writer σ) (slice : List Nat)
    (fuel : Nat) : Run (Status × Writer σ) :=
  AddRecordWith F Writer.EmitPhysicalRecord w slice fuel

/-- The `EmitPhysicalRecord` calls made by `Writer::AddRecord` during its first
`fuel` loop iterations, oldest first. -/
def Writer.AddRecordEmitted {σ : Type} (F : WritableFile σ) (w : Writer σ)
    (slice : List Nat) (fuel : Nat) : List Emission :=
  (AddRecordRun F Writer.EmitPhysicalRecord w slice fuel).emitted

/-! ### Concrete sinks and a callee used in examples -/

/-- A sink that stores every appended byte and never fails; its state is the
list of bytes appended so far. -/
def memFile : WritableFile (List Nat) where
  Append := fun contents data => (Status.OK, contents ++ data)

/-- A callee that, when entered with a record that fits in the current block,
leaves the block offset in `0 .. kBlockSize`. -/
def EmitKeepsOffset {σ : Type} (emit : EmitFn σ) : Prop :=
  ∀ (w : Writer σ) (t : RecordType) (p : List Nat) (n : Nat),
    0 ≤ w.block_offset_ → w.block_offset_ + kHeaderSize + (n : Int) ≤ kBlockSize →
      0 ≤ (emit w t p n).2.block_offset_ ∧ (emit w t p n).2.block_offset_ ≤ kBlockSize

/-- An offset in `0 .. kBlockSize` together with a log of emissions that all lie
inside their block. -/
def WithinBlock {σ : Type} (st : AddRecordState σ) : Prop :=
  0 ≤ st.self.block_offset_ ∧ st.self.block_offset_ ≤ kBlockSize ∧
    ∀ e ∈ st.emitted, 0 ≤ e.block_offset ∧ e.block_offset + kHeaderSize + e.length ≤ kBlockSize

/-- The type sequences of a complete logical record: a single `kFullType`, or
`kFirstType`, any number of `kMiddleType`, then one `kLastTyep`. -/
def RecordPattern (ts : List RecordType) : Prop :=
  ts = [RecordType.kFullType] ∨
    ∃ m, ts = RecordType.kFirstType :: (List.replicate m RecordType.kMiddleType ++
      [RecordType.kLastTyep])

/-- Loop invariant of `AddRecord` on `slice` with the callee of the source, for a
block offset in `0 .. kBlockSize` other than 32761: the fragments emitted so far
are the consumed front of `slice`, `ptr` is the rest, and the types emitted so
far follow the record pattern. -/
structure Consuming {σ : Type} (slice : List Nat) (st : AddRecordState σ) : Prop where
  off0 : 0 ≤ st.self.block_offset_
  off1 : st.self.block_offset_ ≤ kBlockSize
  offne : st.self.block_offset_ ≠ 32761
  left_le : st.left ≤ slice.length
  ptr_eq : st.ptr = slice.drop (slice.length - st.left)
  frags : (st.emitted.map Emission.fragment).flatten = slice.take (slice.length - st.left)
  pc_ok : st.pc ≠ Pc.assertFailed
  done : st.pc = Pc.returned → st.left = 0 ∧ st.s = Status.OK ∧
    RecordPattern (st.emitted.map Emission.type)
  first : st.pc = Pc.running → st.begin = true → st.emitted = []
  later : st.pc = Pc.running → st.begin = false → 0 < st.left ∧
    ∃ m, st.emitted.map Emission.type =
      RecordType.kFirstType :: List.replicate m RecordType.kMiddleType

/-! ## util/random.h -/

/-- Data member of `Random`: `uint32_t seed_`. -/
structure Random where
  seed_ : Nat
deriving DecidableEq, Repr

/-- Embeds `Random::Random(uint32_t s)`: `seed_ = s & 0x7fffffff`, replaced by 1
when that is 0 or 2147483647. -/
def Random.ctor (s : Nat) : Random :=
  let seed : Nat := (s % 2 ^ 32) &&& 0x7fffffff
  if seed = 0 ∨ seed = 2147483647 then { seed_ := 1 } else { seed_ := seed }

/-- Embeds `Random::Next`: returns the new seed and the generator afterwards.
`product` is a `uint64_t`, the sum is truncated to `uint32_t`. -/
def Random.Next (r : Random) : Nat × Random :=
  let M : Nat := 2147483647
  let A : Nat := 16807
  let product : Nat := (r.seed_ * A) % 2 ^ 64
  let seed1 : Nat := (((product >>> 31) + (product &&& M)) % 2 ^ 64) % 2 ^ 32
  let seed2 : Nat := if seed1 > M then seed1 - M else seed1
  (seed2, { seed_ := seed2 })

/-- Embeds `Random::Uniform(int n)`: `Next() % n`, the `int` operand being
converted to `uint32_t`. -/
def Random.Uniform (r : Random) (n : Int) : Nat × Random :=
  ((r.Next).1 % (n % 2 ^ 32).toNat, (r.Next).2)

/-- Embeds `Random::OneIn(int n)`: `(Next() % n) == 0`. -/
def Random.OneIn (r : Random) (n : Int) : Bool × Random :=
  (decide ((r.Next).1 % (n % 2 ^ 32).toNat = 0), (r.Next).2)

/-- The generator after `k` calls of `OneIn(4)` from state `r`. -/
def Random.after (r : Random) : Nat → Random
  | 0 => r
  | k + 1 => Random.after (r.OneIn 4).2 k

/-- The result of draw number `k` (counted from 0) in a series of `OneIn(4)`
calls started in state `r`. -/
def Random.draw (r : Random) (k : Nat) : Bool :=
  ((r.after k).OneIn 4).1

/-! ## db/skiplist.h

A `Node*` is `Option Nat`: `none` is `nullptr`, `some i` points to the `i`-th
node placed in the arena.  Memory orders are not modelled: the embedding is the
sequential behaviour of the single writer. -/

/-- Constant `kMaxHeight = 12`. -/
def kMaxHeight : Int := 12

/-- The struct `SkipList::Node`: the key and the forward links `next_[0 .. height)`. -/
structure Node (Key : Type) where
  key : Key
  next_ : List (Option Nat)

/-- Data members of `SkipList`; `nodes` is the node storage obtained from `arena_`. -/
structure SkipList (Key : Type) where
  compare_ : Key → Key → Int
  nodes : List (Node Key)
  head_ : Option Nat
  max_height_ : Int
  rnd_ : Random

/-- Embeds `SkipList::GetMaxHeight`: the body is `return 0;`. -/
def SkipList.GetMaxHeight {Key : Type} (_l : SkipList Key) : Int :=
  0

/-- Embeds `SkipList::Equal`: `compare_(a, b) == 0`. -/
def SkipList.Equal {Key : Type} (l : SkipList Key) (a b : Key) : Bool :=
  decide (l.compare_ a b = 0)

/-- Dereference of a node pointer; null and dangling pointers are undefined. -/
def SkipList.deref {Key : Type} (l : SkipList Key) (x : Option Nat) : Run (Node Key) :=
  match x with
  | none => Run.undefined
  | some i =>
    match l.nodes[i]? with
    | none => Run.undefined
    | some nd => Run.returned nd

/-- Embeds `Node::Next(n)` (and `NoBarrier_Next`): `assert(n >= 0)`, then
`next_[n]`; a level outside the allocated array is undefined. -/
def Node.Next {Key : Type} (nd : Node Key) (n : Int) : Run (Option Nat) :=
  if n < 0 then Run.assertFailed
  else
    match nd.next_[n.toNat]? with
    | none => Run.undefined
    | some p => Run.returned p

/-- The call `x->Next(n)` for a node pointer `x`. -/
def SkipList.Next {Key : Type} (l : SkipList Key) (x : Option Nat) (n : Int) :
    Run (Option Nat) :=
  (l.deref x).bind fun nd => nd.Next n

/-- Embeds `x->SetNext(n, y)` (and `NoBarrier_SetNext`): `assert(n >= 0)`, then
`next_[n] = y`. -/
def SkipList.SetNext {Key : Type} (l : SkipList Key) (x : Option Nat) (n : Int)
    (y : Option Nat) : Run (SkipList Key) :=
  (l.deref x).bind fun nd =>
    if n < 0 then Run.assertFailed
    else if n.toNat < nd.next_.length then
      match x with
      | none => Run.undefined
      | some i =>
        Run.returned
          { l with nodes := l.nodes.set i { nd with next_ := nd.next_.set n.toNat y } }
    else Run.undefined

/-- Embeds `SkipList::NewNode(key, height)`: a node with `height` link slots is
placed in arena memory; the slots are not initialised (modelled as null).
Returns the pointer and the list afterwards. -/
def SkipList.NewNode {Key : Type} (l : SkipList Key) (key : Key) (height : Int) :
    Option Nat × SkipList Key :=
  (some l.nodes.length,
    { l with nodes := l.nodes ++ [{ key := key, next_ := List.replicate height.toNat none }] })

/-- Loop of `RandomHeight`: `while (height < kMaxHeight && rnd_.OneIn(kBranching))
height++;` with `kBranching = 4`. -/
def RandomHeightLoop : Nat → Int → Random → Run (Int × Random)
  | 0, _, _ => Run.outOfFuel
  | fuel + 1, height, rnd =>
    if height < kMaxHeight then
      if (rnd.OneIn 4).1 then RandomHeightLoop fuel (height + 1) (rnd.OneIn 4).2
      else Run.returned (height, (rnd.OneIn 4).2)
    else Run.returned (height, rnd)

/-- Embeds `SkipList::RandomHeight`: the loop from `height = 1`, then the two
assertions `height > 0` and `height <= kMaxHeight`. -/
def SkipList.RandomHeight {Key : Type} (l : SkipList Key) (fuel : Nat) :
    Run (Int × SkipList Key) :=
  (RandomHeightLoop fuel 1 l.rnd_).bind fun r =>
    if r.1 > 0 ∧ r.1 ≤ kMaxHeight then Run.returned (r.1, { l with rnd_ := r.2 })
    else Run.assertFailed

/-- Embeds `SkipList::KeyIsAfterNode`: `(n != nullptr) && (compare_(n->key, key) < 0)`. -/
def SkipList.KeyIsAfterNode {Key : Type} (l : SkipList Key) (key : Key) (n : Option Nat) :
    Run Bool :=
  match n with
  | none => Run.returned false
  | some i => (l.deref (some i)).bind fun nd => Run.returned (decide (l.compare_ nd.key key < 0))

/-- The assignment `prev[level] = x` when `prev != nullptr`; an index outside the
array is undefined. -/
def storePrev (prev : Option (List (Option Nat))) (level : Int) (x : Option Nat) :
    Run (Option (List (Option Nat))) :=
  match prev with
  | none => Run.returned none
  | some arr =>
    if 0 ≤ level ∧ level.toNat < arr.length then Run.returned (some (arr.set level.toNat x))
    else Run.undefined

/-- The `while (true)` loop of `FindGreaterOrEqual` from node `x` at `level`. -/
def SkipList.FindGreaterOrEqualLoop {Key : Type} (l : SkipList Key) (key : Key) :
    Nat → Option Nat → Int → Option (List (Option Nat)) →
      Run (Option Nat × Option (List (Option Nat)))
  | 0, _, _, _ => Run.outOfFuel
  | fuel + 1, x, level, prev =>
    (l.Next x level).bind fun next =>
    (l.KeyIsAfterNode key next).bind fun after =>
      if after then l.FindGreaterOrEqualLoop key fuel next level prev
      else
        (storePrev prev level x).bind fun prev1 =>
          if level = 0 then Run.returned (next, prev1)
          else l.FindGreaterOrEqualLoop key fuel x (level - 1) prev1

/-- Embeds `SkipList::FindGreaterOrEqual(key, prev)`: `x = head_`,
`level = GetMaxHeight() - 1`, then the loop.  Returns the node found and the
`prev` array afterwards. -/
def SkipList.FindGreaterOrEqual {Key : Type} (l : SkipList Key) (key : Key)
    (prev : Option (List (Option Nat))) (fuel : Nat) :
    Run (Option Nat × Option (List (Option Nat))) :=
  l.FindGreaterOrEqualLoop key fuel l.head_ (l.GetMaxHeight - 1) prev

/-- The loop `for (int i = GetMaxHeight(); i < height; i++) prev[i] = head_;`
run for `count` iterations from index `i`. -/
def fillPrev (head : Option Nat) : Nat → Int → List (Option Nat) → Run (List (Option Nat))
  | 0, _, prev => Run.returned prev
  | count + 1, i, prev =>
    if 0 ≤ i ∧ i.toNat < prev.length then fillPrev head count (i + 1) (prev.set i.toNat head)
    else Run.undefined

/-- The loop `for (int i = 0; i < height; i++)` of `Insert`, run for `count`
iterations from index `i`: `x->NoBarrier_SetNext(i, prev[i]->NoBarrier_Next(i));
prev[i]->SetNext(i, x);`. -/
def SkipList.link {Key : Type} (x : Option Nat) (prev : List (Option Nat)) :
    Nat → Int → SkipList Key → Run (SkipList Key)
  | 0, _, l => Run.returned l
  | count + 1, i, l =>
    if 0 ≤ i then
      match prev[i.toNat]? with
      | none => Run.undefined
      | some p =>
        (l.Next p i).bind fun succ =>
        (l.SetNext x i succ).bind fun l1 =>
        (l1.SetNext p i x).bind fun l2 =>
          SkipList.link x prev count (i + 1) l2
    else Run.undefined

/-- Embeds `SkipList::Insert(key)`.  `prev` starts as twelve unwritten slots. -/
def SkipList.Insert {Key : Type} (l : SkipList Key) (key : Key) (fuel : Nat) :
    Run (SkipList Key) :=
  (l.FindGreaterOrEqual key (some (List.replicate kMaxHeight.toNat none)) fuel).bind fun r =>
  (match r.1 with
    | none => Run.returned true
    | some i => (l.deref (some i)).bind fun nd => Run.returned (!l.Equal key nd.key)).bind
  fun distinct =>
  if distinct = false then Run.assertFailed
  else
    (l.RandomHeight fuel).bind fun h =>
    (if h.1 > h.2.GetMaxHeight then
        (fillPrev h.2.head_ (h.1 - h.2.GetMaxHeight).toNat h.2.GetMaxHeight
            (r.2.getD [])).bind
          fun prev1 => Run.returned (prev1, { h.2 with max_height_ := h.1 })
      else Run.returned (r.2.getD [], h.2)).bind fun pl =>
    SkipList.link (pl.2.NewNode key h.1).1 pl.1 h.1.toNat 0 (pl.2.NewNode key h.1).2

/-- Embeds `SkipList::Contains(key)`. -/
def SkipList.Contains {Key : Type} (l : SkipList Key) (key : Key) (fuel : Nat) : Run Bool :=
  (l.FindGreaterOrEqual key none fuel).bind fun r =>
    match r.1 with
    | none => Run.returned false
    | some i => (l.deref (some i)).bind fun nd => Run.returned (l.Equal key nd.key)

/-- Data member `node_` of `SkipList::Iterator` (`list_` is passed explicitly). -/
structure Iterator where
  node_ : Option Nat
deriving DecidableEq, Repr

/-- Embeds `Iterator::Iterator(list)`: `node_ = nullptr`. -/
def Iterator.ctor : Iterator :=
  { node_ := none }

/-- Embeds `Iterator::Valid`: `node_ != nullptr`. -/
def Iterator.Valid (it : Iterator) : Bool :=
  it.node_.isSome

/-- Embeds `Iterator::key`: `assert(Valid())`, then `node_->key`. -/
def Iterator.key {Key : Type} (l : SkipList Key) (it : Iterator) : Run Key :=
  if it.Valid then (l.deref it.node_).bind fun nd => Run.returned nd.key
  else Run.assertFailed

/-- Embeds `Iterator::Next`: `assert(Valid())`, then `node_ = node_->Next(0)`. -/
def Iterator.Next {Key : Type} (l : SkipList Key) (it : Iterator) : Run Iterator :=
  if it.Valid then (l.Next it.node_ 0).bind fun p => Run.returned { node_ := p }
  else Run.assertFailed

/-- Embeds `Iterator::SeekToFirst`: `node_ = list_->head_->Next(0)`. -/
def Iterator.SeekToFirst {Key : Type} (l : SkipList Key) (_it : Iterator) : Run Iterator :=
  (l.Next l.head_ 0).bind fun p => Run.returned { node_ := p }

/-- The client loop `while (it.Valid()) { visit it.key(); it.Next(); }`:
the keys visited, in order. -/
def Iterator.collect {Key : Type} (l : SkipList Key) : Nat → Iterator → Run (List Key)
  | 0, _ => Run.outOfFuel
  | fuel + 1, it =>
    if it.Valid then
      (it.key l).bind fun k =>
      (it.Next l).bind fun it1 =>
      (Iterator.collect l fuel it1).bind fun ks => Run.returned (k :: ks)
    else Run.returned []

/-- Full level-0 traversal: `SeekToFirst`, then `Next` until `Valid()` is false. -/
def SkipList.traverse {Key : Type} (l : SkipList Key) (fuel : Nat) : Run (List Key) :=
  (Iterator.SeekToFirst l Iterator.ctor).bind fun it => Iterator.collect l fuel it

/-- The `while (true)` loop of `FindLessThan` from node `x` at `level`; each
iteration starts with `assert(x == head_ || compare_(x->key, key) < 0)`. -/
def SkipList.FindLessThanLoop {Key : Type} (l : SkipList Key) (key : Key) :
    Nat → Option Nat → Int → Run (Option Nat)
  | 0, _, _ => Run.outOfFuel
  | fuel + 1, x, level =>
    (if x = l.head_ then Run.returned true
      else (l.deref x).bind fun nd => Run.returned (decide (l.compare_ nd.key key < 0))).bind
    fun holds =>
    if holds = false then Run.assertFailed
    else
      (l.Next x level).bind fun next =>
      (match next with
        | none => Run.returned true
        | some i =>
          (l.deref (some i)).bind fun nd =>
            Run.returned (decide (l.compare_ nd.key key ≥ 0))).bind
      fun stop =>
        if stop then
          if level = 0 then Run.returned x
          else l.FindLessThanLoop key fuel x (level - 1)
        else l.FindLessThanLoop key fuel next level

/-- Embeds `SkipList::FindLessThan(key)`: `x = head_`, `level = GetMaxHeight() - 1`,
then the loop. -/
def SkipList.FindLessThan {Key : Type} (l : SkipList Key) (key : Key) (fuel : Nat) :
    Run (Option Nat) :=
  l.FindLessThanLoop key fuel l.head_ (l.GetMaxHeight - 1)

/-- The pointer that the initialiser `Node* next = GetMaxHeight() - 1;` of
`FindLast` stores: the source initialises a pointer from an `int`, which is taken
here as the pointer with that numeric value (null for 0, a pointer to no node
otherwise). -/
def intToNodePtr (v : Int) : Option Nat :=
  if v = 0 then none else some (v % 2 ^ 64).toNat

/-- The inner `while (true)` loop of `FindLast`.  It never reads a link: `next`
keeps the value it was initialised with. -/
def SkipList.FindLastLoop : Nat → Option Nat → Option Nat → Int → Run (Option Nat)
  | 0, _, _, _ => Run.outOfFuel
  | fuel + 1, x, next, level =>
    match next with
    | none =>
      if level = 0 then Run.returned x
      else SkipList.FindLastLoop fuel x next (level - 1)
    | some p => SkipList.FindLastLoop fuel (some p) next level

/-- Embeds `SkipList::FindLast`: `x = head_`, `level = GetMaxHeight() - 1`; the
outer loop initialises `next` and enters the inner loop, which is left only by
`return x`. -/
def SkipList.FindLast {Key : Type} (l : SkipList Key) (fuel : Nat) : Run (Option Nat) :=
  SkipList.FindLastLoop fuel l.head_ (intToNodePtr (l.GetMaxHeight - 1)) (l.GetMaxHeight - 1)

/-- Embeds `Iterator::Seek(target)`: `node_ = list_->FindGreaterOrEqual(target, nullptr)`. -/
def Iterator.Seek {Key : Type} (l : SkipList Key) (_it : Iterator) (target : Key)
    (fuel : Nat) : Run Iterator :=
  (l.FindGreaterOrEqual target none fuel).bind fun r => Run.returned { node_ := r.1 }

/-- Embeds `Iterator::Prev`: `assert(Valid())`, `node_ = list_->FindLessThan(node_->key)`,
and `node_ = nullptr` when that is `head_`. -/
def Iterator.Prev {Key : Type} (l : SkipList Key) (it : Iterator) (fuel : Nat) :
    Run Iterator :=
  if it.Valid then
    (l.deref it.node_).bind fun nd =>
    (l.FindLessThan nd.key fuel).bind fun p =>
      Run.returned { node_ := if p = l.head_ then none else p }
  else Run.assertFailed

/-- Embeds `Iterator::SeekToLast`: `node_ = list_->FindLast()`, and
`node_ = nullptr` when that is `head_`. -/
def Iterator.SeekToLast {Key : Type} (l : SkipList Key) (_it : Iterator) (fuel : Nat) :
    Run Iterator :=
  (l.FindLast fuel).bind fun p => Run.returned { node_ := if p = l.head_ then none else p }

/-- Modelled from the spec: the constructor `SkipList(Comparator, Arena*)` is
declared in `skiplist.h` but defined nowhere in the repository.  Following the
data model of the specification, a new list owns a sentinel head node that is
present at all `kMaxHeight` levels with no successor, and its maximum height
starts at 1.  The key stored in the head (never compared) and the seed of the
generator are parameters. -/
def SkipList.ctor {Key : Type} (cmp : Key → Key → Int) (headKey : Key) (seed : Nat) :
    SkipList Key :=
  { compare_ := cmp
    nodes := [{ key := headKey, next_ := List.replicate kMaxHeight.toNat none }]
    head_ := some 0
    max_height_ := 1
    rnd_ := Random.ctor seed }

/-- Inserting a sequence of keys one after the other, each call with `fuel`. -/
def SkipList.insertAll {Key : Type} (fuel : Nat) : List Key → SkipList Key → Run (SkipList Key)
  | [], l => Run.returned l
  | k :: ks, l => (l.Insert k fuel).bind fun l1 => SkipList.insertAll fuel ks l1

/-! ## util/arena.h, util/arena.cc

A `char*` is the numeric value of the address (a `Nat`, `nullptr` is 0).
`new char[n]` is the environment: every routine that may obtain a block takes
the address `fresh` that `new` returns if it is called (a failing `new` throws
and the call does not return; that is outside the embedding).  `sizeof(void*)`,
a constant of the platform, is the parameter `ptrSize`.  `memory_usage_` counts
bytes of blocks the process owns at the same time and is kept as an exact
`Nat`; `needed`, computed from the argument of the caller, wraps as `size_t`. -/

/-- Constant `kBlockSize = 4096` of `arena.cc`. -/
def Arena.kBlockSize : Nat := 4096

/-- Data members of `Arena`.  `blocks_` holds the start address of each block;
the size the block was requested with is kept next to it as bookkeeping. -/
structure Arena where
  alloc_ptr_ : Nat
  alloc_bytes_remaining_ : Nat
  blocks_ : List (Nat × Nat)
  memory_usage_ : Nat
deriving DecidableEq, Repr

/-- Embeds `Arena::Arena()`: `alloc_ptr_(nullptr)`, `alloc_bytes_remaining_(0)`,
`memory_usage_(0)`, no block. -/
def Arena.ctor : Arena :=
  { alloc_ptr_ := 0, alloc_bytes_remaining_ := 0, blocks_ := [], memory_usage_ := 0 }

/-- Embeds `Arena::MemoryUsage`: the value of `memory_usage_`. -/
def Arena.MemoryUsage (a : Arena) : Nat :=
  a.memory_usage_

/-- Embeds `Arena::AllocateNewBlock(block_bytes)`: the block returned by `new` is
pushed on `blocks_` and `block_bytes + sizeof(char*)` is added to
`memory_usage_`.  Returns the block and the arena afterwards. -/
def Arena.AllocateNewBlock (ptrSize fresh : Nat) (a : Arena) (block_bytes : Nat) :
    Nat × Arena :=
  (fresh,
    { a with
      blocks_ := a.blocks_ ++ [(fresh, block_bytes)]
      memory_usage_ := a.memory_usage_ + (block_bytes + ptrSize) })

/-- Embeds `Arena::AllocateFallback(bytes)`: a request above `kBlockSize / 4` gets
a block of its own; otherwise a new block of `kBlockSize` bytes becomes the
current block and the request is cut from its start. -/
def Arena.AllocateFallback (ptrSize fresh : Nat) (a : Arena) (bytes : Nat) : Nat × Arena :=
  if bytes > Arena.kBlockSize / 4 then a.AllocateNewBlock ptrSize fresh bytes
  else
    ((a.AllocateNewBlock ptrSize fresh Arena.kBlockSize).1,
      { (a.AllocateNewBlock ptrSize fresh Arena.kBlockSize).2 with
        alloc_ptr_ := (a.AllocateNewBlock ptrSize fresh Arena.kBlockSize).1 + bytes
        alloc_bytes_remaining_ := Arena.kBlockSize - bytes })

/-- The local `align` of `AllocateAligned`: `(sizeof(void*) > 8) ? sizeof(void*) : 8`.
(The `static_assert` that `align` is a power of 2 is a compile-time check on the
platform and has no run-time effect.) -/
def Arena.align (ptrSize : Nat) : Nat :=
  if ptrSize > 8 then ptrSize else 8

/-- The local `slop` of `AllocateAligned`: with
`current_mod = alloc_ptr_ & (align - 1)`, it is 0 when `current_mod` is 0 and
`align - current_mod` otherwise. -/
def Arena.slop (ptrSize : Nat) (a : Arena) : Nat :=
  if a.alloc_ptr_ &&& (Arena.align ptrSize - 1) = 0 then 0
  else Arena.align ptrSize - (a.alloc_ptr_ &&& (Arena.align ptrSize - 1))

/-- The local `needed` of `AllocateAligned`: `bytes + slop` in `size_t`. -/
def Arena.needed (ptrSize : Nat) (a : Arena) (bytes : Nat) : Nat :=
  (bytes + Arena.slop ptrSize a) % 2 ^ 64

/-- Embeds `Arena::AllocateAligned(bytes)`: the request is served from the
current block when `needed <= alloc_bytes_remaining_`, by `AllocateFallback`
otherwise; the final assertion checks the alignment of the result. -/
def Arena.AllocateAligned (ptrSize fresh : Nat) (a : Arena) (bytes : Nat) :
    Run (Nat × Arena) :=
  let r : Nat × Arena :=
    if Arena.needed ptrSize a bytes ≤ a.alloc_bytes_remaining_ then
      (a.alloc_ptr_ + Arena.slop ptrSize a,
        { a with
          alloc_ptr_ := a.alloc_ptr_ + Arena.needed ptrSize a bytes
          alloc_bytes_remaining_ := a.alloc_bytes_remaining_ - Arena.needed ptrSize a bytes })
    else a.AllocateFallback ptrSize fresh bytes
  if r.1 &&& (Arena.align ptrSize - 1) = 0 then Run.returned r else Run.assertFailed

/-- Modelled from the spec: `Arena::Allocate(size_t)` is declared in `arena.h`
but defined nowhere in the repository.  Following the component design of the
specification: if the request fits in the remaining space of the current block
the cursor is bumped, with no rounding; otherwise the request goes to
`AllocateFallback`. -/
def Arena.Allocate (ptrSize fresh : Nat) (a : Arena) (bytes : Nat) : Nat × Arena :=
  if bytes ≤ a.alloc_bytes_remaining_ then
    (a.alloc_ptr_,
      { a with
        alloc_ptr_ := a.alloc_ptr_ + bytes
        alloc_bytes_remaining_ := a.alloc_bytes_remaining_ - bytes })
  else a.AllocateFallback ptrSize fresh bytes

/-- One call on the arena: the routine, its argument `bytes`, and the address
`fresh` that `new` returns if the call obtains a block. -/
inductive ArenaCall where
  | Allocate (bytes fresh : Nat)
  | AllocateAligned (bytes fresh : Nat)
deriving DecidableEq, Repr

/-- The argument `bytes` of a call. -/
def ArenaCall.bytes : ArenaCall → Nat
  | .Allocate n _ => n
  | .AllocateAligned n _ => n

/-- Performs one call: the pointer returned and the arena afterwards. -/
def Arena.call (ptrSize : Nat) (a : Arena) : ArenaCall → Run (Nat × Arena)
  | .Allocate n fresh => Run.returned (a.Allocate ptrSize fresh n)
  | .AllocateAligned n fresh => a.AllocateAligned ptrSize fresh n

/-- Performs a sequence of calls; `rs` collects, oldest first, the byte range
`(result, bytes)` returned by each call. -/
def Arena.runCalls (ptrSize : Nat) :
    List ArenaCall → Arena → List (Nat × Nat) → Run (List (Nat × Nat) × Arena)
  | [], a, rs => Run.returned (rs, a)
  | c :: cs, a, rs =>
    (a.call ptrSize c).bind fun r => Arena.runCalls ptrSize cs r.2 (rs ++ [(r.1, c.bytes)])

/-- Two byte ranges `[p, p + n)` and `[q, q + m)` share no byte. -/
def rangesDisjoint (r s : Nat × Nat) : Prop :=
  r.2 = 0 ∨ s.2 = 0 ∨ r.1 + r.2 ≤ s.1 ∨ s.1 + s.2 ≤ r.1

instance (r s : Nat × Nat) : Decidable (rangesDisjoint r s) := by
  unfold rangesDisjoint
  infer_instance

/-- The byte range `[p, p + n)` lies inside one of the blocks: it is empty, or
some block contains it. -/
def rangeInBlocks (blocks : List (Nat × Nat)) (r : Nat × Nat) : Prop :=
  r.2 = 0 ∨ ∃ b ∈ blocks, b.1 ≤ r.1 ∧ r.1 + r.2 ≤ b.1 + b.2

instance (blocks : List (Nat × Nat)) (r : Nat × Nat) : Decidable (rangeInBlocks blocks r) := by
  unfold rangeInBlocks
  infer_instance

/-- Every block obtained from `new` is an address range disjoint from all
blocks obtained earlier. -/
def blocksDisjoint (blocks : List (Nat × Nat)) : Prop :=
  blocks.Pairwise fun b c => b.1 + b.2 ≤ c.1 ∨ c.1 + c.2 ≤ b.1

instance (blocks : List (Nat × Nat)) : Decidable (blocksDisjoint blocks) := by
  unfold blocksDisjoint
  infer_instance

/-- The request of the call is served from the current block: the test
`bytes <= alloc_bytes_remaining_` of `Allocate`, resp.
`needed <= alloc_bytes_remaining_` of `AllocateAligned`, succeeds. -/
def ArenaCall.fits (ptrSize : Nat) (a : Arena) : ArenaCall → Prop
  | .Allocate n _ => n ≤ a.alloc_bytes_remaining_
  | .AllocateAligned n _ => Arena.needed ptrSize a n ≤ a.alloc_bytes_remaining_

/-- The sum `bytes + slop` of an `AllocateAligned` call cannot wrap around in
`size_t`, whatever the slop: `bytes + align <= 2 ^ 64`.  No condition on an
`Allocate` call. -/
def ArenaCall.noWrap (ptrSize : Nat) : ArenaCall → Prop
  | .Allocate _ _ => True
  | .AllocateAligned n _ => n + Arena.align ptrSize ≤ 2 ^ 64

instance (ptrSize : Nat) (c : ArenaCall) : Decidable (c.noWrap ptrSize) := by
  cases c <;> unfold ArenaCall.noWrap <;> infer_instance

/-- Invariant of an arena `a` together with the ranges `rs` it has returned:
every range lies inside a block, the ranges are pairwise disjoint, the unused
rest of the current block `[alloc_ptr_, alloc_ptr_ + alloc_bytes_remaining_)`
lies inside a block, and no returned range reaches into it. -/
structure ArenaInv (a : Arena) (rs : List (Nat × Nat)) : Prop where
  inBlocks : ∀ r ∈ rs, rangeInBlocks a.blocks_ r
  pairwise : rs.Pairwise rangesDisjoint
  free : rangeInBlocks a.blocks_ (a.alloc_ptr_, a.alloc_bytes_remaining_)
  apart : ∀ r ∈ rs, rangesDisjoint r (a.alloc_ptr_, a.alloc_bytes_remaining_)

/-- The three ways a call can end, in terms of the pointer returned and the
cursor, remaining-bytes count and blocks afterwards: the request is cut from the
current block after `s` bytes of slop; or it gets a block of its own; or a new
standard block is started with it. -/
def Arena.CallShape (a : Arena) (n : Nat) (r : Nat × Arena) : Prop :=
  (∃ s, s + n ≤ a.alloc_bytes_remaining_ ∧ r.1 = a.alloc_ptr_ + s ∧
      r.2.alloc_ptr_ = a.alloc_ptr_ + (s + n) ∧
      r.2.alloc_bytes_remaining_ = a.alloc_bytes_remaining_ - (s + n) ∧
      r.2.blocks_ = a.blocks_) ∨
    (r.2.alloc_ptr_ = a.alloc_ptr_ ∧ r.2.alloc_bytes_remaining_ = a.alloc_bytes_remaining_ ∧
      r.2.blocks_ = a.blocks_ ++ [(r.1, n)]) ∨
    (n ≤ 4096 ∧ r.2.alloc_ptr_ = r.1 + n ∧ r.2.alloc_bytes_remaining_ = 4096 - n ∧
      r.2.blocks_ = a.blocks_ ++ [(r.1, 4096)])

/-! ### Example data for the skip list -/

/-- A three-way comparator on integers, used in examples. -/
def intCompare (a b : Int) : Int :=
  if a < b then -1 else if a = b then 0 else 1

/-- A hand-built list state in which key 1 is linked at level 0 behind the head:
the state a working `Insert(1)` on a new list would produce with height 1. -/
def listWithOne : SkipList Int :=
  { compare_ := intCompare
    nodes := [{ key := 0, next_ := some 1 :: List.replicate 11 none },
      { key := 1, next_ := [none] }]
    head_ := some 0
    max_height_ := 1
    rnd_ := Random.ctor 0 }

/-- A hand-built list state holding keys 1 and 2, linked at level 0 in that
order behind the head (both nodes of height 1). -/
def listWithTwo : SkipList Int :=
  { compare_ := intCompare
    nodes := [{ key := 0, next_ := some 1 :: List.replicate 11 none },
      { key := 1, next_ := [some 2] }, { key := 2, next_ := [none] }]
    head_ := some 0
    max_height_ := 1
    rnd_ := Random.ctor 0 }

/-! # Properties -/

/-! ## Skip list -/

theorem Run.bind_ne_returned {α β : Type} (r : Run α) (f : α → Run β)
    (h : ∀ a, r ≠ Run.returned a) (b : β) : r.bind f ≠ Run.returned b := by
  cases r with
  | returned a => exact absurd rfl (h a)
  | assertFailed => simp [Run.bind]
  | undefined => simp [Run.bind]
  | outOfFuel => simp [Run.bind]

/-- Following a link at a negative level never returns: the assertion `n >= 0`
of `Node::Next` fails (or the node pointer itself is invalid). -/
theorem SkipList.Next_negative {Key : Type} (l : SkipList Key) (x : Option Nat) (n : Int)
    (hn : n < 0) (p : Option Nat) : l.Next x n ≠ Run.returned p := by
  unfold SkipList.Next
  cases hd : l.deref x with
  | returned nd => simp [Run.bind, Node.Next, hn]
  | assertFailed => simp [Run.bind]
  | undefined => simp [Run.bind]
  | outOfFuel => simp [Run.bind]

/-- The search starts at level `GetMaxHeight() - 1 = -1` and never returns. -/
theorem SkipList.FindGreaterOrEqual_never_returns {Key : Type} (l : SkipList Key) (key : Key)
    (prev : Option (List (Option Nat))) (fuel : Nat)
    (r : Option Nat × Option (List (Option Nat))) :
    l.FindGreaterOrEqual key prev fuel ≠ Run.returned r := by
  unfold SkipList.FindGreaterOrEqual
  cases fuel with
  | zero => simp [SkipList.FindGreaterOrEqualLoop]
  | succ n =>
    unfold SkipList.FindGreaterOrEqualLoop
    apply Run.bind_ne_returned
    intro p
    exact SkipList.Next_negative l _ _ (by simp [SkipList.GetMaxHeight]) p

/-- On a list whose head is an allocated node, the search fails the assertion
of `Node::Next` at its first step. -/
theorem SkipList.FindGreaterOrEqual_assertFailed {Key : Type} (l : SkipList Key) (key : Key)
    (prev : Option (List (Option Nat))) (fuel : Nat) (i : Nat) (nd : Node Key)
    (hh : l.head_ = some i) (hi : l.nodes[i]? = some nd) :
    l.FindGreaterOrEqual key prev (fuel + 1) = Run.assertFailed := by
  unfold SkipList.FindGreaterOrEqual SkipList.FindGreaterOrEqualLoop
  simp [SkipList.Next, SkipList.deref, hh, hi, Run.bind, Node.Next, SkipList.GetMaxHeight]

/-- C1 (evaluation of the code): `Insert` returns for no list state, key and fuel;
on a newly constructed list every `Insert`, and hence the insertion of any
non-empty key sequence, stops at the failing assertion `n >= 0` of `Node::Next`,
so no key is ever linked and there is nothing for a traversal to visit. -/
theorem SkipList.Insert_never_returns {Key : Type} :
    (∀ (l : SkipList Key) (key : Key) (fuel : Nat) (l1 : SkipList Key),
        l.Insert key fuel ≠ Run.returned l1) ∧
      (∀ (cmp : Key → Key → Int) (headKey : Key) (seed : Nat) (k : Key) (ks : List Key)
        (fuel : Nat),
        SkipList.insertAll (fuel + 1) (k :: ks) (SkipList.ctor cmp headKey seed) =
          Run.assertFailed) := by
  constructor
  · intro l key fuel l1
    unfold SkipList.Insert
    apply Run.bind_ne_returned
    intro r
    exact SkipList.FindGreaterOrEqual_never_returns l key _ fuel r
  · intro cmp headKey seed k ks fuel
    have h := SkipList.FindGreaterOrEqual_assertFailed (SkipList.ctor cmp headKey seed) k
      (some (List.replicate kMaxHeight.toNat none)) fuel 0
      { key := headKey, next_ := List.replicate kMaxHeight.toNat none } rfl rfl
    simp only [SkipList.insertAll, SkipList.Insert, h, Run.bind]

/-- C2 (evaluation of the code): `Contains` returns for no list state, key and
fuel; on a newly constructed list it stops at the failing assertion of
`Node::Next`, and so it does on a list state in which key 1 is linked at level 0,
where the answer `true` is expected. -/
theorem SkipList.Contains_never_returns {Key : Type} :
    (∀ (l : SkipList Key) (key : Key) (fuel : Nat) (b : Bool),
        l.Contains key fuel ≠ Run.returned b) ∧
      (∀ (cmp : Key → Key → Int) (headKey : Key) (seed : Nat) (key : Key) (fuel : Nat),
        (SkipList.ctor cmp headKey seed).Contains key (fuel + 1) = Run.assertFailed) ∧
      (∀ fuel : Nat, listWithOne.Contains 1 (fuel + 1) = Run.assertFailed) := by
  refine ⟨?_, ?_, ?_⟩
  · intro l key fuel b
    unfold SkipList.Contains
    apply Run.bind_ne_returned
    intro r
    exact SkipList.FindGreaterOrEqual_never_returns l key _ fuel r
  · intro cmp headKey seed key fuel
    have h := SkipList.FindGreaterOrEqual_assertFailed (SkipList.ctor cmp headKey seed) key
      none fuel 0 { key := headKey, next_ := List.replicate kMaxHeight.toNat none } rfl rfl
    simp only [SkipList.Contains, h, Run.bind]
  · intro fuel
    have h := SkipList.FindGreaterOrEqual_assertFailed listWithOne 1 none fuel 0
      { key := 0, next_ := some 1 :: List.replicate 11 none } rfl rfl
    simp only [SkipList.Contains, h, Run.bind]

/-! ### Seek, SeekToFirst, SeekToLast, Prev -/

theorem Run.bind_ne_returned_of_cont {α β : Type} (r : Run α) (f : α → Run β) (b : β)
    (h : ∀ a, f a ≠ Run.returned b) : r.bind f ≠ Run.returned b := by
  cases r with
  | returned a => exact h a
  | assertFailed => simp [Run.bind]
  | undefined => simp [Run.bind]
  | outOfFuel => simp [Run.bind]

/-- The predecessor search starts at level `GetMaxHeight() - 1 = -1` and never
returns. -/
theorem SkipList.FindLessThan_never_returns {Key : Type} (l : SkipList Key) (key : Key)
    (fuel : Nat) (p : Option Nat) : l.FindLessThan key fuel ≠ Run.returned p := by
  unfold SkipList.FindLessThan
  cases fuel with
  | zero => simp [SkipList.FindLessThanLoop]
  | succ n =>
    unfold SkipList.FindLessThanLoop
    simp only [if_true, Run.bind]
    apply Run.bind_ne_returned
    intro q
    exact SkipList.Next_negative l _ _ (by simp [SkipList.GetMaxHeight]) q

/-- On a list whose head is an allocated node, the predecessor search fails the
assertion of `Node::Next` at its first step. -/
theorem SkipList.FindLessThan_assertFailed {Key : Type} (l : SkipList Key) (key : Key)
    (fuel : Nat) (i : Nat) (nd : Node Key) (hh : l.head_ = some i)
    (hi : l.nodes[i]? = some nd) : l.FindLessThan key (fuel + 1) = Run.assertFailed := by
  unfold SkipList.FindLessThan SkipList.FindLessThanLoop
  simp [SkipList.Next, SkipList.deref, hh, hi, Run.bind, Node.Next, SkipList.GetMaxHeight]

/-- Once `next` is not null the inner loop of `FindLast` only repeats `x = next`. -/
theorem SkipList.FindLastLoop_spins (fuel : Nat) (x : Option Nat) (p : Nat) (level : Int) :
    SkipList.FindLastLoop fuel x (some p) level = Run.outOfFuel := by
  induction fuel generalizing x with
  | zero => rfl
  | succ n ih => simp only [SkipList.FindLastLoop, ih]

/-- C11 (evaluation of the code): `Seek` returns for no list state, target and
fuel; on the list state holding keys 1 and 2, `Seek(2)` stops at the failing
assertion `n >= 0` of `Node::Next`, where the iterator is expected on key 2. -/
theorem Iterator.Seek_never_returns {Key : Type} :
    (∀ (l : SkipList Key) (it : Iterator) (target : Key) (fuel : Nat) (it1 : Iterator),
        Iterator.Seek l it target fuel ≠ Run.returned it1) ∧
      (∀ fuel : Nat, Iterator.Seek listWithTwo Iterator.ctor 2 (fuel + 1) = Run.assertFailed) := by
  constructor
  · intro l it target fuel it1
    unfold Iterator.Seek
    apply Run.bind_ne_returned
    intro r
    exact SkipList.FindGreaterOrEqual_never_returns l target none fuel r
  · intro fuel
    have h := SkipList.FindGreaterOrEqual_assertFailed listWithTwo 2 none fuel 0
      { key := 0, next_ := some 1 :: List.replicate 11 none } rfl rfl
    simp only [Iterator.Seek, h, Run.bind]

/-- C12 (evaluation of the code): `SeekToLast` has not returned after any number
of loop iterations, on any list state, empty or not: `FindLast` initialises
`next` with `GetMaxHeight() - 1 = -1`, which is not null, and then repeats
`x = next` for ever. -/
theorem Iterator.SeekToLast_never_returns {Key : Type} (l : SkipList Key) (it : Iterator)
    (fuel : Nat) : Iterator.SeekToLast l it fuel = Run.outOfFuel := by
  have h : l.FindLast fuel = Run.outOfFuel := by
    unfold SkipList.FindLast
    have hp : intToNodePtr (l.GetMaxHeight - 1) = some (2 ^ 64 - 1) := by
      simp [intToNodePtr, SkipList.GetMaxHeight]
    rw [hp]
    exact SkipList.FindLastLoop_spins fuel _ _ _
  simp only [Iterator.SeekToLast, h, Run.bind]

/-- C13 (evaluation of the code): on a newly constructed list `Insert(k)` stops at
the failing assertion of `Node::Next` and links nothing, so `SeekToFirst` on that
list leaves the iterator invalid where it is expected on `k`.  `SeekToFirst`
itself follows the level-0 link of the head: on the list state holding keys 1
and 2 it lands on the node of key 1. -/
theorem Iterator.SeekToFirst_after_Insert {Key : Type} (cmp : Key → Key → Int)
    (headKey : Key) (seed : Nat) (k : Key) (fuel : Nat) :
    (SkipList.ctor cmp headKey seed).Insert k (fuel + 1) = Run.assertFailed ∧
      Iterator.SeekToFirst (SkipList.ctor cmp headKey seed) Iterator.ctor =
        Run.returned { node_ := none } ∧
      Iterator.SeekToFirst listWithTwo Iterator.ctor = Run.returned { node_ := some 1 } ∧
      Iterator.key listWithTwo { node_ := some 1 } = Run.returned 1 := by
  refine ⟨?_, rfl, rfl, rfl⟩
  have h := SkipList.FindGreaterOrEqual_assertFailed (SkipList.ctor cmp headKey seed) k
    (some (List.replicate kMaxHeight.toNat none)) fuel 0
    { key := headKey, next_ := List.replicate kMaxHeight.toNat none } rfl rfl
  simp only [SkipList.Insert, h, Run.bind]

/-- C14 (evaluation of the code): `Prev` returns for no list state, iterator and
fuel; on the list state holding keys 1 and 2 with the iterator on key 2, `Prev`
stops at the failing assertion `n >= 0` of `Node::Next`, where the iterator is
expected on key 1. -/
theorem Iterator.Prev_never_returns {Key : Type} :
    (∀ (l : SkipList Key) (it : Iterator) (fuel : Nat) (it1 : Iterator),
        Iterator.Prev l it fuel ≠ Run.returned it1) ∧
      (∀ fuel : Nat,
        Iterator.Prev listWithTwo { node_ := some 2 } (fuel + 1) = Run.assertFailed) := by
  constructor
  · intro l it fuel it1
    unfold Iterator.Prev
    split_ifs
    · apply Run.bind_ne_returned_of_cont
      intro nd
      apply Run.bind_ne_returned
      intro p
      exact SkipList.FindLessThan_never_returns l nd.key fuel p
    · simp
  · intro fuel
    have h := SkipList.FindLessThan_assertFailed listWithTwo 2 fuel 0
      { key := 0, next_ := some 1 :: List.replicate 11 none } rfl rfl
    have hd : listWithTwo.deref (some 2) = Run.returned { key := 2, next_ := [none] } := rfl
    simp only [Iterator.Prev, Iterator.Valid, Option.isSome, if_true, hd, Run.bind, h]

/-! ## WAL writer: auxiliary facts about the loop of `AddRecord` -/

theorem AddRecordLoop_running {σ : Type} (F : WritableFile σ) (emit : EmitFn σ) (fuel : Nat)
    (st : AddRecordState σ) (h : st.pc = Pc.running) :
    AddRecordLoop F emit (fuel + 1) st = AddRecordLoop F emit fuel (AddRecordBody F emit st) := by
  simp only [AddRecordLoop, h]

theorem AddRecordLoop_stopped {σ : Type} (F : WritableFile σ) (emit : EmitFn σ) (fuel : Nat)
    (st : AddRecordState σ) (h : st.pc ≠ Pc.running) :
    AddRecordLoop F emit fuel st = st := by
  cases fuel with
  | zero => rfl
  | succ n =>
    cases hp : st.pc with
    | running => exact absurd hp h
    | returned => simp only [AddRecordLoop, hp]
    | assertFailed => simp only [AddRecordLoop, hp]

theorem padBlock_offset {σ : Type} (F : WritableFile σ) (w : Writer σ) :
    (w.padBlock F).block_offset_ =
      if kBlockSize - w.block_offset_ < kHeaderSize then 0 else w.block_offset_ := by
  simp only [Writer.padBlock]
  split_ifs <;> rfl

theorem padBlock_of_room {σ : Type} (F : WritableFile σ) (w : Writer σ)
    (h : w.block_offset_ ≤ 32761) : w.padBlock F = w := by
  simp only [Writer.padBlock, kBlockSize, kHeaderSize]
  rw [if_neg (by omega)]

theorem avail_eq {σ : Type} (w : Writer σ) (h0 : 0 ≤ w.block_offset_)
    (h1 : w.block_offset_ ≤ 32761) : w.avail = (32761 - w.block_offset_).toNat := by
  unfold Writer.avail
  have h : (kBlockSize - w.block_offset_ - kHeaderSize) = 32761 - w.block_offset_ := by
    simp only [kBlockSize, kHeaderSize]; ring
  rw [h, Int.emod_eq_of_lt (by omega) (by norm_num; omega)]

theorem fragmentLength_le_left (a b : Nat) : fragmentLength a b ≤ a := by
  unfold fragmentLength; split_ifs <;> omega

theorem fragmentLength_le_avail (a b : Nat) : fragmentLength a b ≤ b := by
  unfold fragmentLength; split_ifs <;> omega

/-- The body of the loop, for a block offset in `0 .. 32761`: no assertion fails,
nothing is padded and the emission step runs on the unchanged writer. -/
theorem AddRecordBody_of_room {σ : Type} (F : WritableFile σ) (emit : EmitFn σ)
    (st : AddRecordState σ) (h0 : 0 ≤ st.self.block_offset_)
    (h1 : st.self.block_offset_ ≤ 32761) :
    AddRecordBody F emit st = AddRecordEmit emit st.self st := by
  unfold AddRecordBody
  rw [padBlock_of_room F st.self h1]
  simp only [kBlockSize, kHeaderSize]
  rw [if_neg (by omega), if_neg (by omega)]

theorem AddRecordBody_withinBlock {σ : Type} (F : WritableFile σ) (emit : EmitFn σ)
    (hemit : EmitKeepsOffset emit)
    (st : AddRecordState σ) (h : WithinBlock st) :
    WithinBlock (AddRecordBody F emit st) := by
  obtain ⟨h0, h1, hE⟩ := h
  have hp := padBlock_offset F st.self
  have hp0 : 0 ≤ (st.self.padBlock F).block_offset_ := by rw [hp]; split_ifs <;> omega
  have hp1 : (st.self.padBlock F).block_offset_ ≤ 32761 := by
    rw [hp]; simp only [kBlockSize, kHeaderSize] at *; split_ifs <;> omega
  have ha := avail_eq _ hp0 hp1
  have hf := fragmentLength_le_avail st.left (st.self.padBlock F).avail
  have hfit : (st.self.padBlock F).block_offset_ + kHeaderSize +
      (fragmentLength st.left (st.self.padBlock F).avail : Int) ≤ kBlockSize := by
    simp only [kBlockSize, kHeaderSize]; omega
  have hem := hemit (st.self.padBlock F)
    (chooseType st.begin (st.left == fragmentLength st.left (st.self.padBlock F).avail))
    st.ptr _ hp0 hfit
  unfold AddRecordBody
  simp only [kBlockSize, kHeaderSize] at h1 ⊢
  rw [if_neg (by omega), if_neg (by omega)]
  refine ⟨hem.1, hem.2, ?_⟩
  intro e he
  simp only [AddRecordEmit, List.mem_append, List.mem_singleton] at he
  rcases he with he | he
  · exact hE e he
  · subst he
    exact ⟨hp0, hfit⟩

theorem AddRecordLoop_withinBlock {σ : Type} (F : WritableFile σ) (emit : EmitFn σ)
    (hemit : EmitKeepsOffset emit)
    (fuel : Nat) (st : AddRecordState σ) (h : WithinBlock st) :
    WithinBlock (AddRecordLoop F emit fuel st) := by
  induction fuel generalizing st with
  | zero => exact h
  | succ n ih =>
    by_cases hp : st.pc = Pc.running
    · rw [AddRecordLoop_running F emit n st hp]
      exact ih _ (AddRecordBody_withinBlock F emit hemit st h)
    · rw [AddRecordLoop_stopped F emit _ st hp]
      exact h

theorem EmitPhysicalRecord_keepsOffset {σ : Type} :
    EmitKeepsOffset (Writer.EmitPhysicalRecord : EmitFn σ) := by
  intro w t p n h0 h1
  simp only [Writer.EmitPhysicalRecord, kBlockSize, kHeaderSize] at *
  omega

/-- The body of the loop with the callee of the source, for a block offset in
`0 .. 32761`, written out. -/
theorem AddRecordBody_stub {σ : Type} (F : WritableFile σ) (st : AddRecordState σ)
    (h0 : 0 ≤ st.self.block_offset_) (h1 : st.self.block_offset_ ≤ 32761) :
    AddRecordBody F Writer.EmitPhysicalRecord st =
      { self := st.self
        ptr := st.ptr.drop (fragmentLength st.left (32761 - st.self.block_offset_).toNat)
        left := st.left - fragmentLength st.left (32761 - st.self.block_offset_).toNat
        s := Status.OK
        begin := false
        pc := if st.left - fragmentLength st.left (32761 - st.self.block_offset_).toNat > 0
          then Pc.running else Pc.returned
        emitted := st.emitted ++ [⟨st.self.block_offset_,
          chooseType st.begin
            (st.left == fragmentLength st.left (32761 - st.self.block_offset_).toNat),
          st.ptr, fragmentLength st.left (32761 - st.self.block_offset_).toNat, Status.OK⟩] } := by
  rw [AddRecordBody_of_room F _ st h0 h1]
  simp only [AddRecordEmit, Writer.EmitPhysicalRecord, avail_eq st.self h0 h1, Status.ok,
    Bool.true_and, decide_eq_true_eq]

/-- At block offset 32761 with payload bytes left, an iteration after the first
emits an empty `kMiddleType` fragment and changes nothing else. -/
theorem AddRecordLoop_stuck {σ : Type} (F : WritableFile σ) (w : Writer σ)
    (hbo : w.block_offset_ = 32761) (ptr : List Nat) (left : Nat) (hl : 0 < left) (n : Nat)
    (es : List Emission) :
    AddRecordLoop F Writer.EmitPhysicalRecord n
        ⟨w, ptr, left, Status.OK, false, Pc.running, es⟩ =
      ⟨w, ptr, left, Status.OK, false, Pc.running,
        es ++ List.replicate n ⟨32761, RecordType.kMiddleType, ptr, 0, Status.OK⟩⟩ := by
  induction n generalizing es with
  | zero => simp [AddRecordLoop]
  | succ k ih =>
    rw [AddRecordLoop_running _ _ _ _ rfl, AddRecordBody_stub F _ (by simp [hbo]) (by simp [hbo])]
    have hl0 : left ≠ 0 := by omega
    simp only [hbo, sub_self, Int.toNat_zero, fragmentLength, Nat.not_lt_zero, if_false,
      List.drop_zero, Nat.sub_zero, hl, if_true, chooseType, Bool.false_and, beq_iff_eq, hl0,
      Bool.false_eq_true]
    rw [ih, List.replicate_succ, List.append_assoc]
    rfl

/-- The whole run at block offset 32761 on a non-empty payload, written out. -/
theorem AddRecordRun_stuck {σ : Type} (F : WritableFile σ) (dest : σ) (crc : List Nat)
    (b : Nat) (bs : List Nat) (n : Nat) :
    AddRecordRun F Writer.EmitPhysicalRecord ⟨dest, 32761, crc⟩ (b :: bs) (n + 1) =
      ⟨⟨dest, 32761, crc⟩, b :: bs, bs.length + 1, Status.OK, false, Pc.running,
        ⟨32761, RecordType.kFirstType, b :: bs, 0, Status.OK⟩ ::
          List.replicate n ⟨32761, RecordType.kMiddleType, b :: bs, 0, Status.OK⟩⟩ := by
  unfold AddRecordRun AddRecordInit
  rw [AddRecordLoop_running _ _ _ _ rfl, AddRecordBody_stub F _ (by simp) (by simp)]
  simp only [sub_self, Int.toNat_zero, fragmentLength, Nat.not_lt_zero, if_false,
    List.drop_zero, Nat.sub_zero, chooseType, List.length_cons, List.nil_append]
  have h := AddRecordLoop_stuck F (⟨dest, 32761, crc⟩ : Writer σ) rfl (b :: bs) (bs.length + 1)
    (by omega) n [⟨32761, RecordType.kFirstType, b :: bs, 0, Status.OK⟩]
  simpa using h

/-- The body of the loop with the callee of the source, for a block offset in
`0 .. kBlockSize`: no assertion fails and the emission runs on the padded writer. -/
theorem AddRecordBody_stub_padded {σ : Type} (F : WritableFile σ) (st : AddRecordState σ)
    (h0 : 0 ≤ st.self.block_offset_) (h1 : st.self.block_offset_ ≤ kBlockSize) :
    AddRecordBody F Writer.EmitPhysicalRecord st =
        AddRecordEmit Writer.EmitPhysicalRecord (st.self.padBlock F) st ∧
      0 ≤ (st.self.padBlock F).block_offset_ ∧ (st.self.padBlock F).block_offset_ ≤ 32761 ∧
      (st.self.block_offset_ ≠ 32761 → (st.self.padBlock F).block_offset_ ≤ 32760) := by
  have hp := padBlock_offset F st.self
  simp only [kBlockSize, kHeaderSize] at hp h1
  have hp0 : 0 ≤ (st.self.padBlock F).block_offset_ := by rw [hp]; split_ifs <;> omega
  have hp1 : (st.self.padBlock F).block_offset_ ≤ 32761 := by rw [hp]; split_ifs <;> omega
  refine ⟨?_, hp0, hp1, ?_⟩
  · unfold AddRecordBody
    simp only [kBlockSize, kHeaderSize]
    rw [if_neg (by omega), if_neg (by omega)]
  · intro hne
    rw [hp]; split_ifs <;> omega

/-- The emission step with the callee of the source, written out. -/
theorem AddRecordEmit_stub {σ : Type} (w1 : Writer σ) (st : AddRecordState σ) :
    AddRecordEmit Writer.EmitPhysicalRecord w1 st =
      { self := w1
        ptr := st.ptr.drop (fragmentLength st.left w1.avail)
        left := st.left - fragmentLength st.left w1.avail
        s := Status.OK
        begin := false
        pc := if 0 < st.left - fragmentLength st.left w1.avail then Pc.running else Pc.returned
        emitted := st.emitted ++ [⟨w1.block_offset_,
          chooseType st.begin (st.left == fragmentLength st.left w1.avail),
          st.ptr, fragmentLength st.left w1.avail, Status.OK⟩] } := by
  simp only [AddRecordEmit, Writer.EmitPhysicalRecord, Status.ok, Bool.true_and,
    decide_eq_true_eq, gt_iff_lt]

theorem AddRecordBody_consuming {σ : Type} (F : WritableFile σ) (slice : List Nat)
    (st : AddRecordState σ) (h : Consuming slice st) (hrun : st.pc = Pc.running) :
    Consuming slice (AddRecordBody F Writer.EmitPhysicalRecord st) ∧
      ((AddRecordBody F Writer.EmitPhysicalRecord st).pc = Pc.running →
        (AddRecordBody F Writer.EmitPhysicalRecord st).left < st.left) := by
  obtain ⟨hb, hp0, hp1, hp2⟩ := AddRecordBody_stub_padded F st h.off0 h.off1
  have hp3 := hp2 h.offne
  have hav := avail_eq (st.self.padBlock F) hp0 hp1
  have havpos : 1 ≤ (st.self.padBlock F).avail := by rw [hav]; omega
  have hnle := fragmentLength_le_left st.left (st.self.padBlock F).avail
  have hnpos : 0 < st.left → 0 < fragmentLength st.left (st.self.padBlock F).avail := by
    intro hl; unfold fragmentLength; split_ifs <;> omega
  rw [hb, AddRecordEmit_stub]
  generalize fragmentLength st.left (st.self.padBlock F).avail = n at hnle hnpos
  have hll := h.left_le
  have hidx : slice.length - (st.left - n) = (slice.length - st.left) + n := by omega
  constructor
  · refine ⟨hp0, by simp only [kBlockSize]; omega, by simp only []; omega,
      by simp only []; omega, ?_, ?_, ?_, ?_, ?_, ?_⟩
    · simp only []
      rw [h.ptr_eq, List.drop_drop, hidx]
    · simp only [List.map_append, List.flatten_append, List.map_cons,
        List.map_nil, List.flatten_cons, List.flatten_nil, List.append_nil, Emission.fragment]
      rw [h.frags, h.ptr_eq, hidx, List.take_add]
    · simp only []
      split_ifs <;> simp
    · simp only []
      intro hret
      have hz : st.left - n = 0 := by
        by_contra hne
        rw [if_pos (by omega)] at hret
        cases hret
      have heq : st.left = n := by omega
      refine ⟨hz, trivial, ?_⟩
      simp only [List.map_append, List.map_cons, List.map_nil, chooseType, heq, beq_self_eq_true,
        Bool.and_true]
      cases hbeg : st.begin with
      | true =>
        rw [h.first hrun hbeg]
        left
        simp
      | false =>
        obtain ⟨_, m, hm⟩ := h.later hrun hbeg
        right
        refine ⟨m, ?_⟩
        rw [hm]
        simp
    · simp only []
      intro _ hbeg
      cases hbeg
    · simp only []
      intro hr _
      have hpos : 0 < st.left - n := by
        by_contra hne
        rw [if_neg hne] at hr
        cases hr
      refine ⟨hpos, ?_⟩
      have hne : (st.left == n) = false := by
        rw [beq_eq_false_iff_ne]; omega
      simp only [List.map_append, List.map_cons, List.map_nil, chooseType, hne, Bool.and_false,
        Bool.false_eq_true, if_false]
      cases hbeg : st.begin with
      | true =>
        rw [h.first hrun hbeg]
        exact ⟨0, by simp⟩
      | false =>
        obtain ⟨_, m, hm⟩ := h.later hrun hbeg
        refine ⟨m + 1, ?_⟩
        rw [hm, List.replicate_succ']
        simp
  · simp only []
    intro hr
    have hpos : 0 < st.left - n := by
      by_contra hne
      rw [if_neg hne] at hr
      cases hr
    have := hnpos (by omega)
    omega

theorem AddRecordLoop_consuming {σ : Type} (F : WritableFile σ) (slice : List Nat) (k : Nat)
    (st : AddRecordState σ) (h : Consuming slice st) (hk : st.left ≤ k) :
    Consuming slice (AddRecordLoop F Writer.EmitPhysicalRecord (k + 1) st) ∧
      (AddRecordLoop F Writer.EmitPhysicalRecord (k + 1) st).pc = Pc.returned := by
  induction k generalizing st with
  | zero =>
    by_cases hrun : st.pc = Pc.running
    · obtain ⟨hc, hlt⟩ := AddRecordBody_consuming F slice st h hrun
      rw [AddRecordLoop_running _ _ _ _ hrun]
      simp only [AddRecordLoop]
      refine ⟨hc, ?_⟩
      cases hpc : (AddRecordBody F Writer.EmitPhysicalRecord st).pc with
      | running => have := hlt hpc; omega
      | returned => rfl
      | assertFailed => exact absurd hpc hc.pc_ok
    · rw [AddRecordLoop_stopped _ _ _ _ hrun]
      refine ⟨h, ?_⟩
      cases hpc : st.pc with
      | running => exact absurd hpc hrun
      | returned => rfl
      | assertFailed => exact absurd hpc h.pc_ok
  | succ j ih =>
    by_cases hrun : st.pc = Pc.running
    · obtain ⟨hc, hlt⟩ := AddRecordBody_consuming F slice st h hrun
      rw [AddRecordLoop_running _ _ _ _ hrun]
      by_cases hrun2 : (AddRecordBody F Writer.EmitPhysicalRecord st).pc = Pc.running
      · exact ih _ hc (by have := hlt hrun2; omega)
      · rw [AddRecordLoop_stopped _ _ _ _ hrun2]
        refine ⟨hc, ?_⟩
        cases hpc : (AddRecordBody F Writer.EmitPhysicalRecord st).pc with
        | running => exact absurd hpc hrun2
        | returned => rfl
        | assertFailed => exact absurd hpc hc.pc_ok
    · rw [AddRecordLoop_stopped _ _ _ _ hrun]
      refine ⟨h, ?_⟩
      cases hpc : st.pc with
      | running => exact absurd hpc hrun
      | returned => rfl
      | assertFailed => exact absurd hpc h.pc_ok

/-- Away from block offset 32761 the loop of `AddRecord` consumes the payload:
started with the block offset in `0 .. 32768` other than 32761, the call returns
OK within `slice.length + 1` iterations, the fragments handed to
`EmitPhysicalRecord` concatenate to the payload, and their types follow the
record pattern. -/
theorem AddRecord_consumes_payload {σ : Type} (F : WritableFile σ) (w : Writer σ)
    (slice : List Nat) (h0 : 0 ≤ w.block_offset_) (h1 : w.block_offset_ ≤ kBlockSize)
    (hne : w.block_offset_ ≠ 32761) :
    (∃ w1, Writer.AddRecord F w slice (slice.length + 1) = Run.returned (Status.OK, w1)) ∧
      ((Writer.AddRecordEmitted F w slice (slice.length + 1)).map Emission.fragment).flatten =
        slice ∧
      RecordPattern ((Writer.AddRecordEmitted F w slice (slice.length + 1)).map
        Emission.type) := by
  have hinit : Consuming slice (AddRecordInit w slice) := by
    refine ⟨h0, h1, hne, le_refl _, ?_, ?_, ?_, ?_, ?_, ?_⟩ <;> simp [AddRecordInit]
  obtain ⟨hc, hret⟩ := AddRecordLoop_consuming F slice slice.length (AddRecordInit w slice)
    hinit (le_refl _)
  obtain ⟨hl, hs, hpat⟩ := hc.done hret
  have hfr := hc.frags
  rw [hl, Nat.sub_zero, List.take_length] at hfr
  refine ⟨⟨(AddRecordLoop F Writer.EmitPhysicalRecord (slice.length + 1)
    (AddRecordInit w slice)).self, ?_⟩, hfr, hpat⟩
  unfold Writer.AddRecord AddRecordWith AddRecordRun
  simp only [hret, hs]

/-! ## WAL writer: the claims -/

/-- C3 (evaluation of the code at a failing input): started at block offset 32761
on any non-empty payload, `AddRecord` has not returned after any number of loop
iterations, every fragment it hands to `EmitPhysicalRecord` is empty, and so the
concatenation of the fragments never equals the payload. -/
theorem AddRecord_offset_32761_fragments_empty {σ : Type} (F : WritableFile σ) (dest : σ)
    (crc : List Nat) (b : Nat) (bs : List Nat) (fuel : Nat) :
    Writer.AddRecord F ⟨dest, 32761, crc⟩ (b :: bs) fuel = Run.outOfFuel ∧
      (∀ e ∈ Writer.AddRecordEmitted F ⟨dest, 32761, crc⟩ (b :: bs) fuel, e.fragment = []) ∧
      ((Writer.AddRecordEmitted F ⟨dest, 32761, crc⟩ (b :: bs) fuel).map
        Emission.fragment).flatten ≠ b :: bs := by
  have key : Writer.AddRecord F ⟨dest, 32761, crc⟩ (b :: bs) fuel = Run.outOfFuel ∧
      (∀ e ∈ Writer.AddRecordEmitted F ⟨dest, 32761, crc⟩ (b :: bs) fuel, e.fragment = []) := by
    cases fuel with
    | zero =>
      refine ⟨rfl, ?_⟩
      intro e he
      simp [Writer.AddRecordEmitted, AddRecordRun, AddRecordLoop, AddRecordInit] at he
    | succ n =>
      unfold Writer.AddRecord AddRecordWith Writer.AddRecordEmitted
      rw [AddRecordRun_stuck]
      refine ⟨rfl, ?_⟩
      intro e he
      simp only [List.mem_cons, List.mem_replicate] at he
      rcases he with he | ⟨_, he⟩ <;> subst he <;> rfl
  refine ⟨key.1, key.2, ?_⟩
  have hnil : ((Writer.AddRecordEmitted F ⟨dest, 32761, crc⟩ (b :: bs) fuel).map
      Emission.fragment).flatten = [] := by
    rw [List.flatten_eq_nil_iff]
    intro l hl
    obtain ⟨e, he, rfl⟩ := List.mem_map.mp hl
    exact key.2 e he
  rw [hnil]
  exact fun h => by cases h

/-- C4: in a call of `AddRecord` started with the block offset in `0 .. 32768`,
every record handed to `EmitPhysicalRecord` lies inside the current block: the
block offset at that moment is at least 0 and offset + header size + fragment
length is at most the block size. -/
theorem AddRecord_emissions_within_block {σ : Type} (F : WritableFile σ) (w : Writer σ)
    (slice : List Nat) (fuel : Nat) (h0 : 0 ≤ w.block_offset_)
    (h1 : w.block_offset_ ≤ kBlockSize) :
    ∀ e ∈ Writer.AddRecordEmitted F w slice fuel,
      0 ≤ e.block_offset ∧ e.block_offset + kHeaderSize + e.length ≤ kBlockSize := by
  have h := AddRecordLoop_withinBlock F Writer.EmitPhysicalRecord EmitPhysicalRecord_keepsOffset
    fuel (AddRecordInit w slice) ⟨h0, h1, by intro e he; cases he⟩
  exact h.2.2

/-- Witness for C4: a writer three bytes before the end of a block. -/
theorem AddRecord_emissions_within_block_witness :
    (0 : Int) ≤ 32765 ∧ (32765 : Int) ≤ kBlockSize ∧
      ∀ e ∈ Writer.AddRecordEmitted memFile ⟨[], 32765, []⟩ [1, 2, 3] 4,
        0 ≤ e.block_offset ∧ e.block_offset + kHeaderSize + e.length ≤ kBlockSize :=
  ⟨by decide, by decide,
    AddRecord_emissions_within_block memFile ⟨[], 32765, []⟩ [1, 2, 3] 4 (by decide) (by decide)⟩

/-- C5 (evaluation of the code at a failing input): started at block offset 32761
on any non-empty payload, the types handed to `EmitPhysicalRecord` during the
first `fuel + 1` iterations are `kFirstType` followed by `fuel` times
`kMiddleType`, and the call has not returned: no `kLastTyep` ever closes the
sequence. -/
theorem AddRecord_offset_32761_types {σ : Type} (F : WritableFile σ) (dest : σ)
    (crc : List Nat) (b : Nat) (bs : List Nat) (fuel : Nat) :
    (Writer.AddRecordEmitted F ⟨dest, 32761, crc⟩ (b :: bs) (fuel + 1)).map Emission.type =
        RecordType.kFirstType :: List.replicate fuel RecordType.kMiddleType ∧
      Writer.AddRecord F ⟨dest, 32761, crc⟩ (b :: bs) (fuel + 1) = Run.outOfFuel := by
  unfold Writer.AddRecord AddRecordWith Writer.AddRecordEmitted
  rw [AddRecordRun_stuck]
  refine ⟨?_, rfl⟩
  simp only [List.map_cons, List.map_replicate]

/-- C6 (evaluation of the code): `EmitPhysicalRecord` returns OK and leaves the
writer, hence the sink and the block offset, untouched; in particular
`AddRecord` of the one-byte payload `[97]` on an empty in-memory sink returns OK
with the sink still empty, where a record of 7 + 1 bytes is expected. -/
theorem EmitPhysicalRecord_appends_nothing :
    (∀ (σ : Type) (w : Writer σ) (t : RecordType) (ptr : List Nat) (n : Nat),
        Writer.EmitPhysicalRecord w t ptr n = (Status.OK, w)) ∧
      Writer.AddRecord memFile ⟨[], 0, []⟩ [97] 1 = Run.returned (Status.OK, ⟨[], 0, []⟩) ∧
      Writer.AddRecordEmitted memFile ⟨[], 0, []⟩ [97] 1 =
        [⟨0, RecordType.kFullType, [97], 1, Status.OK⟩] :=
  ⟨fun _ _ _ _ _ => rfl, by decide, by decide⟩

/-- C7 (evaluation of the code): `AddRecord` of the empty payload at block offset 0
calls `EmitPhysicalRecord` exactly once, with type `kFullType` and length 0, and
returns OK; the writer, and with it the sink, is unchanged, so no checksum (nor
any other header byte) is produced. -/
theorem AddRecord_empty_payload {σ : Type} (F : WritableFile σ) (dest : σ) (crc : List Nat)
    (fuel : Nat) :
    Writer.AddRecordEmitted F ⟨dest, 0, crc⟩ [] (fuel + 1) =
        [⟨0, RecordType.kFullType, [], 0, Status.OK⟩] ∧
      Writer.AddRecord F ⟨dest, 0, crc⟩ [] (fuel + 1) =
        Run.returned (Status.OK, ⟨dest, 0, crc⟩) := by
  have hrun : AddRecordRun F Writer.EmitPhysicalRecord ⟨dest, 0, crc⟩ [] (fuel + 1) =
      ⟨⟨dest, 0, crc⟩, [], 0, Status.OK, false, Pc.returned,
        [⟨0, RecordType.kFullType, [], 0, Status.OK⟩]⟩ := by
    unfold AddRecordRun AddRecordInit
    rw [AddRecordLoop_running _ _ _ _ rfl, AddRecordBody_stub F _ (by simp) (by simp)]
    rw [AddRecordLoop_stopped _ _ _ _ (by simp [fragmentLength])]
    simp [fragmentLength, chooseType]
  unfold Writer.AddRecord AddRecordWith Writer.AddRecordEmitted
  rw [hrun]
  exact ⟨rfl, rfl⟩

/-- C8 (evaluation of the code): `AddRecord` of a 32780-byte payload at block
offset 0 calls `EmitPhysicalRecord` twice, with (`kFirstType`, 32761 bytes) and
(`kLastTyep`, 19 bytes), and returns OK with the writer exactly as it was: for
every sink, the sink is untouched and the block offset is still 0, so no
physical record has been emitted. -/
theorem AddRecord_32780_sink_untouched {σ : Type} (F : WritableFile σ) (dest : σ)
    (crc : List Nat) (slice : List Nat) (fuel : Nat) (h : slice.length = 32780) :
    Writer.AddRecord F ⟨dest, 0, crc⟩ slice (fuel + 2) =
        Run.returned (Status.OK, ⟨dest, 0, crc⟩) ∧
      Writer.AddRecordEmitted F ⟨dest, 0, crc⟩ slice (fuel + 2) =
        [⟨0, RecordType.kFirstType, slice, 32761, Status.OK⟩,
          ⟨0, RecordType.kLastTyep, slice.drop 32761, 19, Status.OK⟩] := by
  have hrun : AddRecordRun F Writer.EmitPhysicalRecord ⟨dest, 0, crc⟩ slice (fuel + 2) =
      ⟨⟨dest, 0, crc⟩, slice.drop 32780, 0, Status.OK, false, Pc.returned,
        [⟨0, RecordType.kFirstType, slice, 32761, Status.OK⟩,
          ⟨0, RecordType.kLastTyep, slice.drop 32761, 19, Status.OK⟩]⟩ := by
    have ht : (32761 : Int).toNat = 32761 := rfl
    unfold AddRecordRun AddRecordInit
    rw [AddRecordLoop_running _ _ _ _ rfl, AddRecordBody_stub F _ (by simp) (by simp)]
    simp only [h, sub_zero, fragmentLength, chooseType, ht]
    norm_num
    rw [AddRecordLoop_running _ _ _ _ rfl, AddRecordBody_stub F _ (by simp) (by simp)]
    simp only [sub_zero, fragmentLength, chooseType, ht]
    norm_num
    rw [AddRecordLoop_stopped _ _ _ _ (by simp)]
  unfold Writer.AddRecord AddRecordWith Writer.AddRecordEmitted
  rw [hrun]
  exact ⟨rfl, rfl⟩

/-- Witness for C8: 32780 zero bytes on an empty in-memory sink, which is still
empty after the call. -/
theorem AddRecord_32780_sink_untouched_witness :
    (List.replicate 32780 0).length = 32780 ∧
      Writer.AddRecord memFile ⟨[], 0, []⟩ (List.replicate 32780 0) 2 =
        Run.returned (Status.OK, ⟨[], 0, []⟩) :=
  ⟨List.length_replicate 32780 0,
    (AddRecord_32780_sink_untouched memFile [] [] (List.replicate 32780 0) 0
      (List.length_replicate 32780 0)).1⟩

/-- C9 (evaluation of the code): both constructors return the storage they were
given unchanged, whatever `dest` and `dest_length` are; for storage holding block
offset 5 and a sink `[7]`, constructing with an empty sink of length 40000 leaves
block offset 5 (not 40000 mod 32768) and sink `[7]` (not `dest`). -/
theorem Writer_ctor_assigns_nothing :
    (∀ (σ : Type) (raw : Writer σ) (dest : σ) (L : Nat),
        Writer.ctorLength raw dest L = raw ∧ Writer.ctor raw dest = raw) ∧
      (Writer.ctorLength ⟨[7], 5, []⟩ ([] : List Nat) 40000).block_offset_ ≠ 40000 % 32768 ∧
      (Writer.ctorLength ⟨[7], 5, []⟩ ([] : List Nat) 40000).dest_ ≠ [] ∧
      (Writer.ctor ⟨[7], 5, []⟩ ([] : List Nat)).block_offset_ ≠ 0 :=
  ⟨fun _ _ _ _ => ⟨rfl, rfl⟩, by decide, by decide, by decide⟩

theorem zeroPad_take (k : Nat) (hk : k ≤ 6) : zeroPad.take k = List.replicate k 0 := by
  interval_cases k <;> rfl

/-- The emission step logs exactly one call, made at the block offset of the
writer it is given. -/
theorem AddRecordEmit_emitted {σ : Type} (emit : EmitFn σ) (w1 : Writer σ)
    (st : AddRecordState σ) :
    ∃ e, (AddRecordEmit emit w1 st).emitted = st.emitted ++ [e] ∧
      e.block_offset = w1.block_offset_ :=
  ⟨_, rfl, rfl⟩

/-- C19 (evaluation of the code): `EmitPhysicalRecord` leaves the block offset as
it is for every writer, type and fragment; `AddRecord` of the three-byte payload
`[1, 2, 3]` at block offset 0 returns OK with the block offset still 0, where
7 + 3 is expected. -/
theorem EmitPhysicalRecord_keeps_block_offset :
    (∀ (σ : Type) (w : Writer σ) (t : RecordType) (ptr : List Nat) (n : Nat),
        (Writer.EmitPhysicalRecord w t ptr n).2.block_offset_ = w.block_offset_) ∧
      Writer.AddRecord memFile ⟨[], 0, []⟩ [1, 2, 3] 1 =
        Run.returned (Status.OK, ⟨[], 0, []⟩) ∧
      Writer.AddRecordEmitted memFile ⟨[], 0, []⟩ [1, 2, 3] 1 =
        [⟨0, RecordType.kFullType, [1, 2, 3], 3, Status.OK⟩] :=
  ⟨fun _ _ _ _ _ => rfl, by decide, by decide⟩

/-- C20: for a loop iteration of `AddRecord` entered with the block offset in
`0 .. 32768` and any callee.  With fewer than 7 bytes left in the block, the
sink receives one `Append` of exactly `32768 - block offset` zero bytes (none when
that is 0), the block offset is reset to 0, and the record of this iteration is
emitted at offset 0.  With 7 or more bytes left, the writer is unchanged before
the emission, which is made at the block offset the iteration started with. -/
theorem AddRecordBody_padding {σ : Type} (F : WritableFile σ) (emit : EmitFn σ)
    (st : AddRecordState σ) (h0 : 0 ≤ st.self.block_offset_)
    (h1 : st.self.block_offset_ ≤ kBlockSize) :
    (kBlockSize - st.self.block_offset_ < kHeaderSize →
        st.self.padBlock F =
          { dest_ := if st.self.block_offset_ = kBlockSize then st.self.dest_
              else (F.Append st.self.dest_
                (List.replicate (kBlockSize - st.self.block_offset_).toNat 0)).2
            block_offset_ := 0
            type_crc_ := st.self.type_crc_ } ∧
          AddRecordBody F emit st = AddRecordEmit emit (st.self.padBlock F) st ∧
          ∃ e, (AddRecordBody F emit st).emitted = st.emitted ++ [e] ∧ e.block_offset = 0) ∧
      (kHeaderSize ≤ kBlockSize - st.self.block_offset_ →
        st.self.padBlock F = st.self ∧
          AddRecordBody F emit st = AddRecordEmit emit st.self st ∧
          ∃ e, (AddRecordBody F emit st).emitted = st.emitted ++ [e] ∧
            e.block_offset = st.self.block_offset_) := by
  have hp := padBlock_offset F st.self
  have hbody : AddRecordBody F emit st = AddRecordEmit emit (st.self.padBlock F) st := by
    have hp0 : 0 ≤ (st.self.padBlock F).block_offset_ := by rw [hp]; split_ifs <;> omega
    have hp1 : (st.self.padBlock F).block_offset_ ≤ 32761 := by
      rw [hp]; simp only [kBlockSize, kHeaderSize] at *; split_ifs <;> omega
    unfold AddRecordBody
    simp only [kBlockSize, kHeaderSize] at h1 ⊢
    rw [if_neg (by omega), if_neg (by omega)]
  constructor
  · intro hlt
    have hpad : st.self.padBlock F =
        { dest_ := if st.self.block_offset_ = kBlockSize then st.self.dest_
            else (F.Append st.self.dest_
              (List.replicate (kBlockSize - st.self.block_offset_).toNat 0)).2
          block_offset_ := 0
          type_crc_ := st.self.type_crc_ } := by
      simp only [Writer.padBlock, hlt, if_true]
      by_cases heq : st.self.block_offset_ = kBlockSize
      · simp [heq]
      · have hpos : kBlockSize - st.self.block_offset_ > 0 := by omega
        have hk : (kBlockSize - st.self.block_offset_).toNat ≤ 6 := by
          simp only [kBlockSize, kHeaderSize] at hlt ⊢; omega
        simp only [hpos, if_true, heq, if_false, zeroPad_take _ hk]
    refine ⟨hpad, hbody, ?_⟩
    rw [hbody]
    obtain ⟨e, he1, he2⟩ := AddRecordEmit_emitted emit (st.self.padBlock F) st
    exact ⟨e, he1, by rw [he2, hp, if_pos hlt]⟩
  · intro hge
    have hpad : st.self.padBlock F = st.self := by
      simp only [Writer.padBlock]
      rw [if_neg (by omega)]
    refine ⟨hpad, by rw [hbody, hpad], ?_⟩
    rw [hbody, hpad]
    exact AddRecordEmit_emitted emit st.self st

/-- Witness for C20: three bytes left in the block, in-memory sink holding `[9]`. -/
theorem AddRecordBody_padding_witness :
    (0 : Int) ≤ 32765 ∧ (32765 : Int) ≤ kBlockSize ∧ kBlockSize - 32765 < kHeaderSize ∧
      (⟨[9], 32765, []⟩ : Writer (List Nat)).padBlock memFile = ⟨[9, 0, 0, 0], 0, []⟩ ∧
      ∃ e, (AddRecordBody memFile Writer.EmitPhysicalRecord
          (AddRecordInit ⟨[9], 32765, []⟩ [1, 2])).emitted = [] ++ [e] ∧ e.block_offset = 0 :=
  ⟨by decide, by decide, by decide, by decide,
    ((AddRecordBody_padding memFile Writer.EmitPhysicalRecord
      (AddRecordInit ⟨[9], 32765, []⟩ [1, 2]) (by decide) (by decide)).1 (by decide)).2.2⟩

/-! ## Arena -/

theorem Arena.align_of_le (ptrSize : Nat) (h : ptrSize ≤ 8) : Arena.align ptrSize = 8 := by
  unfold Arena.align
  rw [if_neg (by omega)]

theorem Arena.align_eq_max (ptrSize : Nat) : Arena.align ptrSize = max ptrSize 8 := by
  unfold Arena.align
  split_ifs <;> omega

theorem Arena.and_seven (x : Nat) : x &&& 7 = x % 8 :=
  Nat.and_pow_two_sub_one_eq_mod x 3

theorem Arena.slop_of_le (ptrSize : Nat) (a : Arena) (h : ptrSize ≤ 8) :
    Arena.slop ptrSize a = if a.alloc_ptr_ % 8 = 0 then 0 else 8 - a.alloc_ptr_ % 8 := by
  unfold Arena.slop
  rw [Arena.align_of_le ptrSize h]
  simp only [Nat.add_one_sub_one, Arena.and_seven]

/-- The slop is less than the alignment, for every pointer size. -/
theorem Arena.slop_lt_align (ptrSize : Nat) (a : Arena) :
    Arena.slop ptrSize a < Arena.align ptrSize := by
  have hpos : 8 ≤ Arena.align ptrSize := by
    unfold Arena.align; split_ifs <;> omega
  unfold Arena.slop
  split_ifs with h
  · omega
  · omega

/-- C16: for a pointer size of at most 8 bytes (so that `align` is 8) and a block
from `new` that starts at a multiple of 8, `AllocateAligned` returns from every
arena state and for every request size, its final assertion holds, the address
returned is a multiple of `max(pointer size, 8)`, and the slop is in `0 .. 7`. -/
theorem Arena.AllocateAligned_aligned (ptrSize fresh : Nat) (a : Arena) (bytes : Nat)
    (hp : ptrSize ≤ 8) (hf : fresh % 8 = 0) :
    Arena.slop ptrSize a ≤ 7 ∧
      ∃ r, a.AllocateAligned ptrSize fresh bytes = Run.returned r ∧
        r.1 % max ptrSize 8 = 0 := by
  have hal := Arena.align_of_le ptrSize hp
  have hs := Arena.slop_of_le ptrSize a hp
  have hmax : max ptrSize 8 = 8 := by omega
  have hslop : (a.alloc_ptr_ + Arena.slop ptrSize a) % 8 = 0 := by
    rw [hs]; split_ifs <;> omega
  refine ⟨by rw [hs]; split_ifs <;> omega, ?_⟩
  unfold Arena.AllocateAligned
  simp only [hal, Nat.add_one_sub_one, Arena.and_seven, hmax]
  by_cases hfit : Arena.needed ptrSize a bytes ≤ a.alloc_bytes_remaining_
  · simp only [hfit, if_true, hslop]
    exact ⟨_, rfl, hslop⟩
  · have hfb : (a.AllocateFallback ptrSize fresh bytes).1 = fresh := by
      unfold Arena.AllocateFallback Arena.AllocateNewBlock
      split_ifs <;> rfl
    simp only [hfit, if_false, hfb, hf, if_true]
    exact ⟨_, rfl, by rw [hfb]; exact hf⟩

/-- Witness for C16: a cursor one byte into a block. -/
theorem Arena.AllocateAligned_aligned_witness :
    (8 : Nat) ≤ 8 ∧ 16384 % 8 = 0 ∧
      Arena.slop 8 ⟨8193, 4095, [(8192, 4096)], 4104⟩ ≤ 7 ∧
      ∃ r, Arena.AllocateAligned 8 16384 ⟨8193, 4095, [(8192, 4096)], 4104⟩ 24 =
          Run.returned r ∧ r.1 % max 8 8 = 0 :=
  ⟨by decide, by decide,
    Arena.AllocateAligned_aligned 8 16384 ⟨8193, 4095, [(8192, 4096)], 4104⟩ 24
      (by decide) (by decide)⟩

/-- The memory usage never decreases in a call, and is unchanged when the
request is served from the current block. -/
theorem Arena.call_memory_usage (ptrSize : Nat) (a : Arena) (c : ArenaCall)
    (r : Nat × Arena) (h : a.call ptrSize c = Run.returned r) :
    a.memory_usage_ ≤ r.2.memory_usage_ ∧
      (c.fits ptrSize a → r.2.memory_usage_ = a.memory_usage_) := by
  have hfb : ∀ n fresh, a.memory_usage_ ≤ (a.AllocateFallback ptrSize fresh n).2.memory_usage_ := by
    intro n fresh
    unfold Arena.AllocateFallback Arena.AllocateNewBlock
    split_ifs <;> simp
  cases c with
  | Allocate n fresh =>
    simp only [Arena.call, Arena.Allocate, Run.returned.injEq] at h
    subst h
    simp only [ArenaCall.fits]
    split_ifs with hfit
    · exact ⟨le_refl _, fun _ => rfl⟩
    · exact ⟨hfb n fresh, fun hf => absurd hf hfit⟩
  | AllocateAligned n fresh =>
    simp only [Arena.call, Arena.AllocateAligned] at h
    simp only [ArenaCall.fits]
    split_ifs at h with hfit hal hal
    · simp only [Run.returned.injEq] at h
      subst h
      exact ⟨le_refl _, fun _ => rfl⟩
    · simp only [Run.returned.injEq] at h
      subst h
      exact ⟨hfb n fresh, fun hf => absurd hf hfit⟩

/-- C17: `MemoryUsage()` is 0 on a new arena; for every arena state and every
call of `Allocate` or `AllocateAligned` that returns, `MemoryUsage()` afterwards
is at least `MemoryUsage()` before, and equal to it when the request is served
from the current block. -/
theorem Arena.MemoryUsage_monotone (ptrSize : Nat) (a : Arena) (c : ArenaCall)
    (r : Nat × Arena) (h : a.call ptrSize c = Run.returned r) :
    Arena.ctor.MemoryUsage = 0 ∧ a.MemoryUsage ≤ r.2.MemoryUsage ∧
      (c.fits ptrSize a → r.2.MemoryUsage = a.MemoryUsage) :=
  ⟨rfl, Arena.call_memory_usage ptrSize a c r h⟩

/-- Witness for C17: the first aligned allocation on a new arena. -/
theorem Arena.MemoryUsage_monotone_witness :
    Arena.ctor.call 8 (ArenaCall.AllocateAligned 24 8192) =
        Run.returned (8192, ⟨8216, 4072, [(8192, 4096)], 4104⟩) ∧
      Arena.ctor.MemoryUsage = 0 ∧
      Arena.ctor.MemoryUsage ≤ (⟨8216, 4072, [(8192, 4096)], 4104⟩ : Arena).MemoryUsage :=
  ⟨by decide,
    (Arena.MemoryUsage_monotone 8 Arena.ctor (ArenaCall.AllocateAligned 24 8192)
      (8192, ⟨8216, 4072, [(8192, 4096)], 4104⟩) (by decide)).1,
    (Arena.MemoryUsage_monotone 8 Arena.ctor (ArenaCall.AllocateAligned 24 8192)
      (8192, ⟨8216, 4072, [(8192, 4096)], 4104⟩) (by decide)).2.1⟩

/-- The fall-back path of `AllocateAligned`, entered when the code's test
`needed <= alloc_bytes_remaining_` fails and `new` returns an aligned block at
`fresh`: a block of its own for `bytes > 1024`, a new standard block otherwise. -/
theorem Arena.AllocateAligned_of_test_failed (ptrSize fresh : Nat) (a : Arena) (bytes : Nat)
    (hfit : ¬ Arena.needed ptrSize a bytes ≤ a.alloc_bytes_remaining_)
    (hal : fresh &&& (Arena.align ptrSize - 1) = 0) :
    (1024 < bytes →
        a.AllocateAligned ptrSize fresh bytes =
          Run.returned (fresh,
            { alloc_ptr_ := a.alloc_ptr_
              alloc_bytes_remaining_ := a.alloc_bytes_remaining_
              blocks_ := a.blocks_ ++ [(fresh, bytes)]
              memory_usage_ := a.memory_usage_ + (bytes + ptrSize) })) ∧
      (bytes ≤ 1024 →
        a.AllocateAligned ptrSize fresh bytes =
          Run.returned (fresh,
            { alloc_ptr_ := fresh + bytes
              alloc_bytes_remaining_ := 4096 - bytes
              blocks_ := a.blocks_ ++ [(fresh, 4096)]
              memory_usage_ := a.memory_usage_ + (4096 + ptrSize) })) := by
  constructor
  · intro hb
    have hbig : bytes > Arena.kBlockSize / 4 := by simp only [Arena.kBlockSize]; omega
    simp only [Arena.AllocateAligned, hfit, if_false, Arena.AllocateFallback, hbig, if_true,
      Arena.AllocateNewBlock, hal]
  · intro hb
    have hsmall : ¬ bytes > 4096 / 4 := by omega
    simp only [Arena.AllocateAligned, hfit, if_false, Arena.AllocateFallback, Arena.kBlockSize,
      hsmall, Arena.AllocateNewBlock, hal, if_true]

/-- C18 (counterexample to the claim as stated): with 4095 bytes left in the block
and the cursor at 8193 (slop 7), a request of `2 ^ 64 - 1` bytes does not fit and
is above 1024 bytes, yet `needed` wraps round to 6, the test
`needed <= alloc_bytes_remaining_` succeeds, no block is obtained, and the cursor
and the remaining-bytes count change. -/
theorem Arena.AllocateAligned_wrap_no_new_block :
    (4095 : Nat) < (2 ^ 64 - 1) + Arena.slop 8 ⟨8193, 4095, [(8192, 4096)], 4104⟩ ∧
      (1024 : Nat) < 2 ^ 64 - 1 ∧
      Arena.needed 8 ⟨8193, 4095, [(8192, 4096)], 4104⟩ (2 ^ 64 - 1) = 6 ∧
      Arena.AllocateAligned 8 16384 ⟨8193, 4095, [(8192, 4096)], 4104⟩ (2 ^ 64 - 1) =
        Run.returned (8200, ⟨8199, 4089, [(8192, 4096)], 4104⟩) :=
  ⟨by decide, by decide, by decide, by decide⟩

/-- C18 (amended): for a request with `bytes + align <= 2 ^ 64` that does not fit
in the current block (`bytes + slop` exceeds `alloc_bytes_remaining_`), when `new`
returns an aligned block at `fresh`: for `bytes > 1024` the call returns `fresh`,
the arena has the one new block `(fresh, bytes)` and the cursor and the
remaining-bytes count are unchanged; for `bytes <= 1024` the call returns
`fresh`, the arena has the one new block `(fresh, 4096)`, the cursor is
`fresh + bytes` and the remaining-bytes count is `4096 - bytes`. -/
theorem Arena.AllocateAligned_overflow (ptrSize fresh : Nat) (a : Arena) (bytes : Nat)
    (hnw : bytes + Arena.align ptrSize ≤ 2 ^ 64)
    (hfit : a.alloc_bytes_remaining_ < bytes + Arena.slop ptrSize a)
    (hal : fresh &&& (Arena.align ptrSize - 1) = 0) :
    (1024 < bytes →
        a.AllocateAligned ptrSize fresh bytes =
          Run.returned (fresh,
            { alloc_ptr_ := a.alloc_ptr_
              alloc_bytes_remaining_ := a.alloc_bytes_remaining_
              blocks_ := a.blocks_ ++ [(fresh, bytes)]
              memory_usage_ := a.memory_usage_ + (bytes + ptrSize) })) ∧
      (bytes ≤ 1024 →
        a.AllocateAligned ptrSize fresh bytes =
          Run.returned (fresh,
            { alloc_ptr_ := fresh + bytes
              alloc_bytes_remaining_ := 4096 - bytes
              blocks_ := a.blocks_ ++ [(fresh, 4096)]
              memory_usage_ := a.memory_usage_ + (4096 + ptrSize) })) := by
  have hlt := Arena.slop_lt_align ptrSize a
  have hneed : Arena.needed ptrSize a bytes = bytes + Arena.slop ptrSize a := by
    unfold Arena.needed
    exact Nat.mod_eq_of_lt (by omega)
  exact Arena.AllocateAligned_of_test_failed ptrSize fresh a bytes (by rw [hneed]; omega) hal

/-- Witness for C18 (amended): a request of 2000 bytes with 100 bytes left in the
block. -/
theorem Arena.AllocateAligned_overflow_witness :
    2000 + Arena.align 8 ≤ 2 ^ 64 ∧
      (100 : Nat) < 2000 + Arena.slop 8 ⟨12188, 100, [(8192, 4096)], 4104⟩ ∧
      16384 &&& (Arena.align 8 - 1) = 0 ∧
      Arena.AllocateAligned 8 16384 ⟨12188, 100, [(8192, 4096)], 4104⟩ 2000 =
        Run.returned (16384, ⟨12188, 100, [(8192, 4096), (16384, 2000)], 6112⟩) :=
  ⟨by decide, by decide, by decide,
    (Arena.AllocateAligned_overflow 8 16384 ⟨12188, 100, [(8192, 4096)], 4104⟩ 2000
      (by decide) (by decide) (by decide)).1 (by decide)⟩

/-! ### Returned ranges -/

theorem rangeInBlocks_append (bs : List (Nat × Nat)) (nb r : Nat × Nat)
    (h : rangeInBlocks bs r) : rangeInBlocks (bs ++ [nb]) r := by
  rcases h with h | ⟨b, hb, h1, h2⟩
  · exact Or.inl h
  · exact Or.inr ⟨b, List.mem_append_left _ hb, h1, h2⟩

/-- A range inside one of the old blocks is disjoint from every range inside a
new block that is disjoint from the old ones. -/
theorem rangesDisjoint_of_new_block (bs : List (Nat × Nat)) (nb r s : Nat × Nat)
    (hd : blocksDisjoint (bs ++ [nb])) (hr : rangeInBlocks bs r)
    (hs : nb.1 ≤ s.1 ∧ s.1 + s.2 ≤ nb.1 + nb.2) : rangesDisjoint r s := by
  unfold blocksDisjoint at hd
  rw [List.pairwise_append] at hd
  rcases hr with hr | ⟨b, hb, h1, h2⟩
  · exact Or.inl hr
  · have := hd.2.2 b hb nb (List.mem_singleton.mpr rfl)
    unfold rangesDisjoint
    omega

theorem Arena.AllocateFallback_shape (ptrSize fresh : Nat) (a : Arena) (n : Nat) :
    Arena.CallShape a n (a.AllocateFallback ptrSize fresh n) := by
  unfold Arena.AllocateFallback Arena.AllocateNewBlock
  split_ifs with h
  · exact Or.inr (Or.inl ⟨rfl, rfl, rfl⟩)
  · simp only [Arena.kBlockSize] at h ⊢
    exact Or.inr (Or.inr ⟨by omega, rfl, rfl, rfl⟩)

theorem Arena.call_shape (ptrSize : Nat) (a : Arena) (c : ArenaCall) (r : Nat × Arena)
    (h : a.call ptrSize c = Run.returned r) (hnw : c.noWrap ptrSize) :
    Arena.CallShape a c.bytes r := by
  cases c with
  | Allocate n fresh =>
    simp only [Arena.call, Arena.Allocate, Run.returned.injEq] at h
    subst h
    simp only [ArenaCall.bytes]
    split_ifs with hfit
    · exact Or.inl ⟨0, by omega, rfl, by simp, by simp, rfl⟩
    · exact Arena.AllocateFallback_shape ptrSize fresh a n
  | AllocateAligned n fresh =>
    simp only [ArenaCall.noWrap] at hnw
    have hlt := Arena.slop_lt_align ptrSize a
    have hneed : Arena.needed ptrSize a n = n + Arena.slop ptrSize a := by
      unfold Arena.needed
      exact Nat.mod_eq_of_lt (by omega)
    simp only [Arena.call, Arena.AllocateAligned] at h
    simp only [ArenaCall.bytes]
    split_ifs at h with hfit hal hal
    · simp only [Run.returned.injEq] at h
      subst h
      rw [hneed] at hfit
      refine Or.inl ⟨Arena.slop ptrSize a, by omega, rfl, ?_, ?_, rfl⟩
      · simp only [hneed]; omega
      · simp only [hneed]; omega
    · simp only [Run.returned.injEq] at h
      subst h
      exact Arena.AllocateFallback_shape ptrSize fresh a n

theorem Arena.CallShape.blocks_prefix {a : Arena} {n : Nat} {r : Nat × Arena}
    (h : Arena.CallShape a n r) : a.blocks_ <+: r.2.blocks_ := by
  rcases h with ⟨s, _, _, _, _, hb⟩ | ⟨_, _, hb⟩ | ⟨_, _, _, hb⟩
  · rw [hb]
  · rw [hb]; exact List.prefix_append _ _
  · rw [hb]; exact List.prefix_append _ _

/-- One call preserves the invariant, when the blocks afterwards are pairwise
disjoint. -/
theorem ArenaInv.step {a : Arena} {rs : List (Nat × Nat)} {n : Nat} {r : Nat × Arena}
    (hinv : ArenaInv a rs) (hs : Arena.CallShape a n r) (hd : blocksDisjoint r.2.blocks_) :
    ArenaInv r.2 (rs ++ [(r.1, n)]) := by
  obtain ⟨hin, hpw, hfree, hap⟩ := hinv
  rcases hs with ⟨s, hsn, hr1, hptr, hrem, hb⟩ | ⟨hptr, hrem, hb⟩ | ⟨hn, hptr, hrem, hb⟩
  · -- cut from the current block
    have hnew : rangeInBlocks a.blocks_ (r.1, n) := by
      rcases hfree with h0 | ⟨b, hbm, h1, h2⟩
      · simp only at h0; exact Or.inl (by simp only; omega)
      · simp only at h1 h2
        exact Or.inr ⟨b, hbm, by simp only; omega, by simp only; omega⟩
    refine ⟨?_, ?_, ?_, ?_⟩
    · intro x hx
      rw [hb]
      rcases List.mem_append.mp hx with hx | hx
      · exact hin x hx
      · rw [List.mem_singleton] at hx; subst hx; exact hnew
    · rw [List.pairwise_append]
      refine ⟨hpw, List.pairwise_singleton _ _, ?_⟩
      intro x hx y hy
      rw [List.mem_singleton] at hy; subst hy
      have := hap x hx
      unfold rangesDisjoint at this ⊢
      simp only at this ⊢
      omega
    · rw [hb, hptr, hrem]
      rcases hfree with h0 | ⟨b, hbm, h1, h2⟩
      · simp only at h0; exact Or.inl (by simp only; omega)
      · simp only at h1 h2
        exact Or.inr ⟨b, hbm, by simp only; omega, by simp only; omega⟩
    · intro x hx
      rw [hptr, hrem]
      rcases List.mem_append.mp hx with hx | hx
      · have := hap x hx
        unfold rangesDisjoint at this ⊢
        simp only at this ⊢
        omega
      · rw [List.mem_singleton] at hx; subst hx
        unfold rangesDisjoint
        simp only
        omega
  · -- a block of its own
    rw [hb] at hd
    refine ⟨?_, ?_, ?_, ?_⟩
    · intro x hx
      rw [hb]
      rcases List.mem_append.mp hx with hx | hx
      · exact rangeInBlocks_append _ _ _ (hin x hx)
      · rw [List.mem_singleton] at hx; subst hx
        exact Or.inr ⟨(r.1, n), List.mem_append_right _ (List.mem_singleton.mpr rfl),
          le_refl _, le_refl _⟩
    · rw [List.pairwise_append]
      refine ⟨hpw, List.pairwise_singleton _ _, ?_⟩
      intro x hx y hy
      rw [List.mem_singleton] at hy; subst hy
      exact rangesDisjoint_of_new_block a.blocks_ (r.1, n) x (r.1, n) hd (hin x hx)
        ⟨le_refl _, le_refl _⟩
    · rw [hb, hptr, hrem]
      exact rangeInBlocks_append _ _ _ hfree
    · intro x hx
      rw [hptr, hrem]
      rcases List.mem_append.mp hx with hx | hx
      · exact hap x hx
      · rw [List.mem_singleton] at hx; subst hx
        have := rangesDisjoint_of_new_block a.blocks_ (r.1, n)
          (a.alloc_ptr_, a.alloc_bytes_remaining_) (r.1, n) hd hfree ⟨le_refl _, le_refl _⟩
        unfold rangesDisjoint at this ⊢
        simp only at this ⊢
        omega
  · -- a new standard block
    rw [hb] at hd
    refine ⟨?_, ?_, ?_, ?_⟩
    · intro x hx
      rw [hb]
      rcases List.mem_append.mp hx with hx | hx
      · exact rangeInBlocks_append _ _ _ (hin x hx)
      · rw [List.mem_singleton] at hx; subst hx
        exact Or.inr ⟨(r.1, 4096), List.mem_append_right _ (List.mem_singleton.mpr rfl),
          le_refl _, by simp only; omega⟩
    · rw [List.pairwise_append]
      refine ⟨hpw, List.pairwise_singleton _ _, ?_⟩
      intro x hx y hy
      rw [List.mem_singleton] at hy; subst hy
      exact rangesDisjoint_of_new_block a.blocks_ (r.1, 4096) x (r.1, n) hd (hin x hx)
        ⟨le_refl _, by simp only; omega⟩
    · rw [hb, hptr, hrem]
      exact Or.inr ⟨(r.1, 4096), List.mem_append_right _ (List.mem_singleton.mpr rfl),
        by simp only; omega, by simp only; omega⟩
    · intro x hx
      rw [hptr, hrem]
      rcases List.mem_append.mp hx with hx | hx
      · exact rangesDisjoint_of_new_block a.blocks_ (r.1, 4096) x (r.1 + n, 4096 - n) hd
          (hin x hx) ⟨by simp only; omega, by simp only; omega⟩
      · rw [List.mem_singleton] at hx; subst hx
        unfold rangesDisjoint
        simp only
        omega

/-- The blocks of the arena at the start of a run are the first blocks of the
arena at its end. -/
theorem Arena.runCalls_blocks_prefix (ptrSize : Nat) (cs : List ArenaCall) (a : Arena)
    (rs : List (Nat × Nat)) (out : List (Nat × Nat) × Arena)
    (hnw : ∀ c ∈ cs, c.noWrap ptrSize)
    (h : Arena.runCalls ptrSize cs a rs = Run.returned out) : a.blocks_ <+: out.2.blocks_ := by
  induction cs generalizing a rs with
  | nil =>
    simp only [Arena.runCalls, Run.returned.injEq] at h
    subst h
    exact List.prefix_refl _
  | cons c cs ih =>
    simp only [Arena.runCalls] at h
    cases hc : a.call ptrSize c with
    | returned r =>
      rw [hc] at h
      simp only [Run.bind] at h
      have hsh := Arena.call_shape ptrSize a c r hc (hnw c (List.mem_cons_self _ _))
      exact hsh.blocks_prefix.trans
        (ih r.2 _ (fun d hdm => hnw d (List.mem_cons_of_mem _ hdm)) h)
    | assertFailed => rw [hc] at h; simp [Run.bind] at h
    | undefined => rw [hc] at h; simp [Run.bind] at h
    | outOfFuel => rw [hc] at h; simp [Run.bind] at h

theorem Arena.runCalls_inv (ptrSize : Nat) (cs : List ArenaCall) (a : Arena)
    (rs : List (Nat × Nat)) (out : List (Nat × Nat) × Arena)
    (hnw : ∀ c ∈ cs, c.noWrap ptrSize) (hinv : ArenaInv a rs)
    (h : Arena.runCalls ptrSize cs a rs = Run.returned out)
    (hd : blocksDisjoint out.2.blocks_) : ArenaInv out.2 out.1 := by
  induction cs generalizing a rs with
  | nil =>
    simp only [Arena.runCalls, Run.returned.injEq] at h
    subst h
    exact hinv
  | cons c cs ih =>
    simp only [Arena.runCalls] at h
    cases hc : a.call ptrSize c with
    | returned r =>
      rw [hc] at h
      simp only [Run.bind] at h
      have hnw1 : ∀ d ∈ cs, d.noWrap ptrSize := fun d hdm => hnw d (List.mem_cons_of_mem _ hdm)
      have hsh := Arena.call_shape ptrSize a c r hc (hnw c (List.mem_cons_self _ _))
      have hpre := Arena.runCalls_blocks_prefix ptrSize cs r.2 _ out hnw1 h
      have hd1 : blocksDisjoint r.2.blocks_ := List.Pairwise.sublist hpre.sublist hd
      exact ih r.2 _ hnw1 (hinv.step hsh hd1) h
    | assertFailed => rw [hc] at h; simp [Run.bind] at h
    | undefined => rw [hc] at h; simp [Run.bind] at h
    | outOfFuel => rw [hc] at h; simp [Run.bind] at h

/-- C15 (counterexample to the claim as stated): on a new arena with 8-byte
pointers, `AllocateAligned(1)` starts a block at 8192; for
`AllocateAligned(2 ^ 64 - 1)` the slop is 7 and `needed` wraps round to 6, so the
request is taken to fit and the call returns 8200; `AllocateAligned(8)` then
returns 8200 as well.  The second range is not inside the block, and the second
and third ranges overlap. -/
theorem Arena.ranges_overlap_after_wrap :
    Arena.runCalls 8 [ArenaCall.AllocateAligned 1 8192,
        ArenaCall.AllocateAligned (2 ^ 64 - 1) 0, ArenaCall.AllocateAligned 8 0]
        Arena.ctor [] =
      Run.returned ([(8192, 1), (8200, 2 ^ 64 - 1), (8200, 8)],
        ⟨8208, 4080, [(8192, 4096)], 4104⟩) ∧
      Arena.needed 8 ⟨8193, 4095, [(8192, 4096)], 4104⟩ (2 ^ 64 - 1) = 6 ∧
      blocksDisjoint [(8192, 4096)] ∧
      ¬ rangeInBlocks [(8192, 4096)] (8200, 2 ^ 64 - 1) ∧
      ¬ rangesDisjoint (8200, 2 ^ 64 - 1) (8200, 8) :=
  ⟨by decide, by decide, by decide, by decide, by decide⟩

/-- C15 (amended): for every sequence of `Allocate` / `AllocateAligned` calls on a
new arena in which the size of every `AllocateAligned` request satisfies
`bytes + align <= 2 ^ 64`, if the run returns and the blocks obtained are
pairwise disjoint address ranges, then the byte ranges returned by different
calls are pairwise disjoint and each lies inside a block of the arena. -/
theorem Arena.runCalls_ranges (ptrSize : Nat) (cs : List ArenaCall)
    (rs : List (Nat × Nat)) (a : Arena) (hnw : ∀ c ∈ cs, c.noWrap ptrSize)
    (hrun : Arena.runCalls ptrSize cs Arena.ctor [] = Run.returned (rs, a))
    (hd : blocksDisjoint a.blocks_) :
    rs.Pairwise rangesDisjoint ∧ ∀ r ∈ rs, rangeInBlocks a.blocks_ r := by
  have hinit : ArenaInv Arena.ctor [] := by
    refine ⟨?_, List.Pairwise.nil, Or.inl rfl, ?_⟩ <;> intro r hr <;> cases hr
  have h := Arena.runCalls_inv ptrSize cs Arena.ctor [] (rs, a) hnw hinit hrun hd
  exact ⟨h.pairwise, h.inBlocks⟩

/-- Witness for C15 (amended): five calls that use all three paths. -/
theorem Arena.runCalls_ranges_witness :
    Arena.runCalls 8 [ArenaCall.Allocate 10 8192, ArenaCall.AllocateAligned 16 0,
        ArenaCall.AllocateAligned 5000 16384, ArenaCall.Allocate 4000 0,
        ArenaCall.Allocate 100 32768] Arena.ctor [] =
      Run.returned ([(8192, 10), (8208, 16), (16384, 5000), (8224, 4000), (32768, 100)],
        ⟨32868, 3996, [(8192, 4096), (16384, 5000), (32768, 4096)], 13216⟩) ∧
      [(8192, 10), (8208, 16), (16384, 5000), (8224, 4000), (32768, 100)].Pairwise
        rangesDisjoint ∧
      ∀ r ∈ [(8192, 10), (8208, 16), (16384, 5000), (8224, 4000), (32768, 100)],
        rangeInBlocks [(8192, 4096), (16384, 5000), (32768, 4096)] r :=
  ⟨by decide,
    Arena.runCalls_ranges 8 [ArenaCall.Allocate 10 8192, ArenaCall.AllocateAligned 16 0,
        ArenaCall.AllocateAligned 5000 16384, ArenaCall.Allocate 4000 0,
        ArenaCall.Allocate 100 32768]
      [(8192, 10), (8208, 16), (16384, 5000), (8224, 4000), (32768, 100)]
      ⟨32868, 3996, [(8192, 4096), (16384, 5000), (32768, 4096)], 13216⟩
      (by decide) (by decide) (by decide)⟩

/-! ## Random -/

theorem Random.coprime_modulus : Nat.Coprime 2147483647 16807 := by
  norm_num

/-- The modulus `2 ^ 31 - 1` does not divide `s * 16807` for a seed `s` in
`1 .. 2 ^ 31 - 2`. -/
theorem Random.product_mod_ne_zero (s : Nat) (h1 : 1 ≤ s) (h2 : s ≤ 2147483646) :
    (s * 16807) % 2147483647 ≠ 0 := by
  intro h
  have hd : 2147483647 ∣ s * 16807 := Nat.dvd_of_mod_eq_zero h
  have hs : 2147483647 ∣ s := Random.coprime_modulus.dvd_of_dvd_mul_right hd
  have := Nat.le_of_dvd (by omega) hs
  omega

/-- The value computed by `Next` from a seed in `1 .. 2 ^ 31 - 2`; none of the
truncations to 64 and to 32 bits changes a value. -/
theorem Random.Next_value (r : Random) (h1 : 1 ≤ r.seed_) (h2 : r.seed_ ≤ 2 ^ 31 - 2) :
    (r.Next).1 = (r.seed_ * 16807) % (2 ^ 31 - 1) ∧ r.seed_ * 16807 < 2 ^ 64 ∧
      (r.seed_ * 16807) / 2 ^ 31 + (r.seed_ * 16807) % 2 ^ 31 < 2 ^ 32 := by
  have hne := Random.product_mod_ne_zero r.seed_ h1 (by omega)
  have hshift : ∀ x : Nat, x >>> 31 = x / 2147483648 := fun x => by
    rw [Nat.shiftRight_eq_div_pow]
  have hand : ∀ x : Nat, x &&& 2147483647 = x % 2147483648 := fun x =>
    Nat.and_pow_two_sub_one_eq_mod x 31
  norm_num at h2 ⊢
  generalize hp : r.seed_ * 16807 = p at hne ⊢
  have hp64 : p < 18446744073709551616 := by omega
  have hq : p / 2147483648 ≤ 16806 := by omega
  have ht : p % 2147483648 < 2147483648 := Nat.mod_lt _ (by norm_num)
  have hsum : p / 2147483648 + p % 2147483648 < 4294967296 := by omega
  have hdecomp : p = 2147483647 * (p / 2147483648) + (p / 2147483648 + p % 2147483648) := by
    have := Nat.div_add_mod p 2147483648
    omega
  have hmod : p % 2147483647 = (p / 2147483648 + p % 2147483648) % 2147483647 := by
    conv_lhs => rw [hdecomp]
    exact Nat.mul_add_mod _ _ _
  refine ⟨?_, hp64, hsum⟩
  simp only [Random.Next, hshift, hand, hp]
  norm_num
  rw [Nat.mod_eq_of_lt hp64, Nat.mod_eq_of_lt hsum, hmod]
  have hu : p / 2147483648 + p % 2147483648 < 2147483648 + 16807 := by omega
  rw [hmod] at hne
  generalize p / 2147483648 + p % 2147483648 = u at hu hne ⊢
  clear hmod hdecomp hsum ht hq hp64 hp
  split_ifs with hgt
  · omega
  · omega

theorem Random.ctor_range (s : Nat) :
    1 ≤ (Random.ctor s).seed_ ∧ (Random.ctor s).seed_ ≤ 2 ^ 31 - 2 := by
  have hand : ∀ x : Nat, x &&& 2147483647 = x % 2147483648 := fun x =>
    Nat.and_pow_two_sub_one_eq_mod x 31
  simp only [Random.ctor, hand]
  have hlt : s % 2 ^ 32 % 2147483648 < 2147483648 := Nat.mod_lt _ (by norm_num)
  split_ifs with h
  · norm_num
  · simp only
    norm_num at h ⊢
    omega

/-- C25: for a generator whose seed `s` is in `1 .. 2 ^ 31 - 2`, `Next` returns
`(s * 16807) mod (2 ^ 31 - 1)` and stores it as the new seed; the value is again
in `1 .. 2 ^ 31 - 2`; the product is below `2 ^ 64`, so the 64-bit
multiplication does not overflow.  The constructor puts every seed in
`1 .. 2 ^ 31 - 2`, and maps 0 and `2 ^ 31 - 1` to 1. -/
theorem Random.Next_spec (r : Random) (h1 : 1 ≤ r.seed_) (h2 : r.seed_ ≤ 2 ^ 31 - 2) :
    (r.Next).1 = (r.seed_ * 16807) % (2 ^ 31 - 1) ∧ (r.Next).2.seed_ = (r.Next).1 ∧
      1 ≤ (r.Next).1 ∧ (r.Next).1 ≤ 2 ^ 31 - 2 ∧ r.seed_ * 16807 < 2 ^ 64 ∧
      (∀ s : Nat, 1 ≤ (Random.ctor s).seed_ ∧ (Random.ctor s).seed_ ≤ 2 ^ 31 - 2) ∧
      Random.ctor 0 = { seed_ := 1 } ∧ Random.ctor (2 ^ 31 - 1) = { seed_ := 1 } := by
  obtain ⟨hv, h64, _⟩ := Random.Next_value r h1 h2
  have hne := Random.product_mod_ne_zero r.seed_ h1 (by omega)
  have hlt : (r.seed_ * 16807) % (2 ^ 31 - 1) < 2 ^ 31 - 1 := Nat.mod_lt _ (by norm_num)
  refine ⟨hv, rfl, ?_, ?_, h64, Random.ctor_range, by decide, by decide⟩
  · rw [hv]; norm_num at hne ⊢; omega
  · rw [hv]; norm_num at hlt ⊢; omega

/-- Witness for C25: the seed 1. -/
theorem Random.Next_spec_witness :
    (1 : Nat) ≤ 1 ∧ (1 : Nat) ≤ 2 ^ 31 - 2 ∧
      ((⟨1⟩ : Random).Next).1 = (1 * 16807) % (2 ^ 31 - 1) ∧
      ((⟨1⟩ : Random).Next).2.seed_ = ((⟨1⟩ : Random).Next).1 :=
  ⟨by decide, by decide, (Random.Next_spec ⟨1⟩ (by decide) (by decide)).1,
    (Random.Next_spec ⟨1⟩ (by decide) (by decide)).2.1⟩

/-- Draw `k + 1` from `r` is draw `k` from the state after one call. -/
theorem Random.draw_succ (r : Random) (k : Nat) :
    r.draw (k + 1) = (r.OneIn 4).2.draw k := rfl

/-- The loop of `RandomHeight` entered at `height = 12 - d`: with fuel for `d + 1`
iterations it returns `height + n`, where the first `n` draws returned true and,
unless `n = d`, draw `n` returned false. -/
theorem RandomHeightLoop_returns (d : Nat) (height : Int) (r : Random) (fuel : Nat)
    (hh : height + d = kMaxHeight) (hf : d + 1 ≤ fuel) :
    ∃ n r1, n ≤ d ∧ (∀ i, i < n → r.draw i = true) ∧ (n < d → r.draw n = false) ∧
      RandomHeightLoop fuel height r = Run.returned (height + n, r1) := by
  induction d generalizing height r fuel with
  | zero =>
    obtain ⟨f, rfl⟩ : ∃ f, fuel = f + 1 := ⟨fuel - 1, by omega⟩
    refine ⟨0, r, le_refl _, fun i hi => absurd hi (Nat.not_lt_zero i), fun h => absurd h (lt_irrefl 0), ?_⟩
    simp only [Nat.cast_zero, add_zero] at hh ⊢
    simp only [RandomHeightLoop, hh, lt_self_iff_false, if_false]
  | succ d ih =>
    obtain ⟨f, rfl⟩ : ∃ f, fuel = f + 1 := ⟨fuel - 1, by omega⟩
    have hlt : height < kMaxHeight := by
      have : (0 : Int) ≤ (d : Int) := Int.ofNat_nonneg d
      push_cast at hh
      omega
    by_cases hdraw : (r.OneIn 4).1 = true
    · obtain ⟨n, r1, hn, htrue, hfalse, hrun⟩ :=
        ih (height + 1) (r.OneIn 4).2 f (by push_cast at hh ⊢; omega) (by omega)
      refine ⟨n + 1, r1, by omega, ?_, ?_, ?_⟩
      · intro i hi
        cases i with
        | zero => exact hdraw
        | succ j => rw [Random.draw_succ]; exact htrue j (by omega)
      · intro hlt2
        rw [Random.draw_succ]
        exact hfalse (by omega)
      · simp only [RandomHeightLoop, hlt, if_true, hdraw, hrun]
        push_cast
        rw [add_assoc, add_comm (1 : Int)]
    · refine ⟨0, (r.OneIn 4).2, by omega, fun i hi => absurd hi (Nat.not_lt_zero i), ?_, ?_⟩
      · intro _
        simpa [Random.draw, Random.after] using hdraw
      · simp only [RandomHeightLoop, hlt, if_true, hdraw, Nat.cast_zero, add_zero]
        simp

/-- C24: from every state of the generator and with fuel for 12 iterations,
`RandomHeight` returns (both assertions hold) a height `n + 1` with `n <= 11`,
where the first `n` draws of `OneIn(4)` returned true and, unless `n = 11`,
draw `n` returned false; so the height is in `1 .. 12`. -/
theorem SkipList.RandomHeight_spec {Key : Type} (l : SkipList Key) (fuel : Nat) :
    ∃ n r1, n ≤ 11 ∧ (∀ i, i < n → l.rnd_.draw i = true) ∧
      (n < 11 → l.rnd_.draw n = false) ∧
      l.RandomHeight (fuel + 12) = Run.returned ((n : Int) + 1, { l with rnd_ := r1 }) := by
  obtain ⟨n, r1, hn, htrue, hfalse, hrun⟩ :=
    RandomHeightLoop_returns 11 1 l.rnd_ (fuel + 12) (by simp [kMaxHeight]) (by omega)
  refine ⟨n, r1, hn, htrue, hfalse, ?_⟩
  have hpos : (0 : Int) ≤ (n : Int) := Int.ofNat_nonneg n
  have hle : (n : Int) ≤ 11 := by exact_mod_cast hn
  simp only [SkipList.RandomHeight, hrun, Run.bind, kMaxHeight]
  rw [if_pos ⟨by omega, by omega⟩, add_comm]

/-! ## Skip list: maximum height and link levels -/

/-- C22 (evaluation of the code): `GetMaxHeight()` is 0 for every list state,
whatever `max_height_` holds; on a newly constructed list, whose `max_height_`
is 1, it returns 0, which is not in `1 .. 12`. -/
theorem SkipList.GetMaxHeight_constant {Key : Type} :
    (∀ l : SkipList Key, l.GetMaxHeight = 0) ∧
      (∀ (cmp : Key → Key → Int) (headKey : Key) (seed : Nat),
        (SkipList.ctor cmp headKey seed).max_height_ = 1 ∧
          (SkipList.ctor cmp headKey seed).GetMaxHeight = 0) ∧
      (∀ l : SkipList Key, ¬ (1 ≤ l.GetMaxHeight ∧ l.GetMaxHeight ≤ kMaxHeight)) :=
  ⟨fun _ => rfl, fun _ _ _ => ⟨rfl, rfl⟩, fun _ h => by simp [SkipList.GetMaxHeight] at h⟩

/-- C23 (evaluation of the code): on the well-formed list state holding keys 1
and 2, the searches start at level `GetMaxHeight() - 1 = -1`; the first link
access `head_->Next(-1)` fails the assertion `n >= 0`, and with it
`FindGreaterOrEqual`, `FindLessThan` and `Insert`. -/
theorem SkipList.first_link_access_below_zero :
    listWithTwo.GetMaxHeight - 1 = -1 ∧
      listWithTwo.Next listWithTwo.head_ (listWithTwo.GetMaxHeight - 1) = Run.assertFailed ∧
      ∀ fuel : Nat,
        listWithTwo.FindGreaterOrEqual 3 none (fuel + 1) = Run.assertFailed ∧
          listWithTwo.FindLessThan 3 (fuel + 1) = Run.assertFailed ∧
          listWithTwo.Insert 3 (fuel + 1) = Run.assertFailed := by
  refine ⟨rfl, rfl, fun fuel => ⟨?_, ?_, ?_⟩⟩
  · exact SkipList.FindGreaterOrEqual_assertFailed listWithTwo 3 none fuel 0
      { key := 0, next_ := some 1 :: List.replicate 11 none } rfl rfl
  · exact SkipList.FindLessThan_assertFailed listWithTwo 3 fuel 0
      { key := 0, next_ := some 1 :: List.replicate 11 none } rfl rfl
  · have h := SkipList.FindGreaterOrEqual_assertFailed listWithTwo 3
      (some (List.replicate kMaxHeight.toNat none)) fuel 0
      { key := 0, next_ := some 1 :: List.replicate 11 none } rfl rfl
    simp only [SkipList.Insert, h, Run.bind]

/-! ## WAL writer: termination -/

/-- C21 (evaluation of the code): started with exactly 7 bytes left in the block
(offset 32761) on any non-empty payload, `AddRecord` is still in its loop after
any number of iterations, no byte of the payload has been consumed, and the
fragment lengths emitted so far sum to 0. -/
theorem AddRecord_offset_32761_never_terminates {σ : Type} (F : WritableFile σ) (dest : σ)
    (crc : List Nat) (b : Nat) (bs : List Nat) (fuel : Nat) :
    (AddRecordRun F Writer.EmitPhysicalRecord ⟨dest, 32761, crc⟩ (b :: bs) fuel).pc =
        Pc.running ∧
      (AddRecordRun F Writer.EmitPhysicalRecord ⟨dest, 32761, crc⟩ (b :: bs) fuel).left =
        (b :: bs).length ∧
      ((Writer.AddRecordEmitted F ⟨dest, 32761, crc⟩ (b :: bs) fuel).map
        Emission.length).sum = 0 := by
  cases fuel with
  | zero => exact ⟨rfl, rfl, rfl⟩
  | succ n =>
    unfold Writer.AddRecordEmitted
    rw [AddRecordRun_stuck]
    refine ⟨rfl, rfl, ?_⟩
    simp [List.sum_replicate]

/-- Away from offset 32761 the emitted fragment lengths and the bytes left
always add up to the payload length. -/
theorem AddRecordLoop_lengths {σ : Type} (F : WritableFile σ) (slice : List Nat) (fuel : Nat)
    (st : AddRecordState σ) (h : Consuming slice st)
    (hsum : (st.emitted.map Emission.length).sum + st.left = slice.length) :
    ((AddRecordLoop F Writer.EmitPhysicalRecord fuel st).emitted.map Emission.length).sum +
      (AddRecordLoop F Writer.EmitPhysicalRecord fuel st).left = slice.length := by
  induction fuel generalizing st with
  | zero => exact hsum
  | succ n ih =>
    by_cases hrun : st.pc = Pc.running
    · rw [AddRecordLoop_running _ _ _ _ hrun]
      refine ih _ (AddRecordBody_consuming F slice st h hrun).1 ?_
      rw [(AddRecordBody_stub_padded F st h.off0 h.off1).1, AddRecordEmit_stub]
      have := fragmentLength_le_left st.left (st.self.padBlock F).avail
      simp only [List.map_append, List.map_cons, List.map_nil, List.sum_append, List.sum_cons,
        List.sum_nil]
      omega
    · rw [AddRecordLoop_stopped _ _ _ _ hrun]
      exact hsum

/-- Away from offset 32761 `AddRecord` terminates: started with the block offset
in `0 .. 32768` other than 32761, the loop is left within `slice.length + 1`
iterations and the emitted fragment lengths sum to the payload length. -/
theorem AddRecord_terminates_away_from_32761 {σ : Type} (F : WritableFile σ) (w : Writer σ)
    (slice : List Nat) (h0 : 0 ≤ w.block_offset_) (h1 : w.block_offset_ ≤ kBlockSize)
    (hne : w.block_offset_ ≠ 32761) :
    (AddRecordRun F Writer.EmitPhysicalRecord w slice (slice.length + 1)).pc = Pc.returned ∧
      ((Writer.AddRecordEmitted F w slice (slice.length + 1)).map Emission.length).sum =
        slice.length := by
  have hinit : Consuming slice (AddRecordInit w slice) := by
    refine ⟨h0, h1, hne, le_refl _, ?_, ?_, ?_, ?_, ?_, ?_⟩ <;> simp [AddRecordInit]
  obtain ⟨hc, hret⟩ := AddRecordLoop_consuming F slice slice.length (AddRecordInit w slice)
    hinit (le_refl _)
  have hlen := AddRecordLoop_lengths F slice (slice.length + 1) (AddRecordInit w slice) hinit
    (by simp [AddRecordInit])
  have hl := (hc.done hret).1
  refine ⟨hret, ?_⟩
  unfold Writer.AddRecordEmitted AddRecordRun
  omega

/-! ## Arena: memory usage as a sum over blocks -/

/-- What one call does to the blocks and to the usage counter: nothing; or one
block of the requested size, above 1024 bytes; or one block of 4096 bytes. -/
theorem Arena.call_blocks_usage (ptrSize : Nat) (a : Arena) (c : ArenaCall) (r : Nat × Arena)
    (h : a.call ptrSize c = Run.returned r) :
    (r.2.blocks_ = a.blocks_ ∧ r.2.memory_usage_ = a.memory_usage_) ∨
      (1024 < c.bytes ∧ r.2.blocks_ = a.blocks_ ++ [(r.1, c.bytes)] ∧
        r.2.memory_usage_ = a.memory_usage_ + (c.bytes + ptrSize)) ∨
      (r.2.blocks_ = a.blocks_ ++ [(r.1, 4096)] ∧
        r.2.memory_usage_ = a.memory_usage_ + (4096 + ptrSize)) := by
  have hfb : ∀ n fresh,
      (1024 < n ∧ (a.AllocateFallback ptrSize fresh n).2.blocks_ =
          a.blocks_ ++ [((a.AllocateFallback ptrSize fresh n).1, n)] ∧
        (a.AllocateFallback ptrSize fresh n).2.memory_usage_ =
          a.memory_usage_ + (n + ptrSize)) ∨
      ((a.AllocateFallback ptrSize fresh n).2.blocks_ =
          a.blocks_ ++ [((a.AllocateFallback ptrSize fresh n).1, 4096)] ∧
        (a.AllocateFallback ptrSize fresh n).2.memory_usage_ =
          a.memory_usage_ + (4096 + ptrSize)) := by
    intro n fresh
    unfold Arena.AllocateFallback Arena.AllocateNewBlock
    split_ifs with hbig
    · simp only [Arena.kBlockSize] at hbig
      exact Or.inl ⟨by omega, rfl, rfl⟩
    · exact Or.inr ⟨rfl, rfl⟩
  cases c with
  | Allocate n fresh =>
    simp only [Arena.call, Arena.Allocate, Run.returned.injEq] at h
    subst h
    simp only [ArenaCall.bytes]
    split_ifs with hfit
    · exact Or.inl ⟨rfl, rfl⟩
    · exact Or.inr (hfb n fresh)
  | AllocateAligned n fresh =>
    simp only [Arena.call, Arena.AllocateAligned] at h
    simp only [ArenaCall.bytes]
    split_ifs at h with hfit hal hal
    · simp only [Run.returned.injEq] at h
      subst h
      exact Or.inl ⟨rfl, rfl⟩
    · simp only [Run.returned.injEq] at h
      subst h
      exact Or.inr (hfb n fresh)

theorem Arena.runCalls_usage (ptrSize : Nat) (Q : Nat → Prop) (cs : List ArenaCall)
    (a : Arena) (rs : List (Nat × Nat)) (out : List (Nat × Nat) × Arena)
    (hQ : ∀ c ∈ cs, Q c.bytes)
    (husage : a.memory_usage_ = (a.blocks_.map fun b => b.2 + ptrSize).sum)
    (hblocks : ∀ b ∈ a.blocks_, b.2 = 4096 ∨ (1024 < b.2 ∧ Q b.2))
    (h : Arena.runCalls ptrSize cs a rs = Run.returned out) :
    out.2.memory_usage_ = (out.2.blocks_.map fun b => b.2 + ptrSize).sum ∧
      ∀ b ∈ out.2.blocks_, b.2 = 4096 ∨ (1024 < b.2 ∧ Q b.2) := by
  induction cs generalizing a rs with
  | nil =>
    simp only [Arena.runCalls, Run.returned.injEq] at h
    subst h
    exact ⟨husage, hblocks⟩
  | cons c cs ih =>
    simp only [Arena.runCalls] at h
    cases hc : a.call ptrSize c with
    | returned r =>
      rw [hc] at h
      simp only [Run.bind] at h
      have hQ1 : ∀ d ∈ cs, Q d.bytes := fun d hdm => hQ d (List.mem_cons_of_mem _ hdm)
      have hQc : Q c.bytes := hQ c (List.mem_cons_self _ _)
      rcases Arena.call_blocks_usage ptrSize a c r hc with
        ⟨hb, hu⟩ | ⟨hbig, hb, hu⟩ | ⟨hb, hu⟩
      · exact ih r.2 _ hQ1 (by rw [hu, hb]; exact husage) (by rw [hb]; exact hblocks) h
      · refine ih r.2 _ hQ1 ?_ ?_ h
        · rw [hu, hb, husage]; simp
        · rw [hb]
          intro b hbm
          rcases List.mem_append.mp hbm with hbm | hbm
          · exact hblocks b hbm
          · rw [List.mem_singleton] at hbm; subst hbm
            exact Or.inr ⟨hbig, hQc⟩
      · refine ih r.2 _ hQ1 ?_ ?_ h
        · rw [hu, hb, husage]; simp
        · rw [hb]
          intro b hbm
          rcases List.mem_append.mp hbm with hbm | hbm
          · exact hblocks b hbm
          · rw [List.mem_singleton] at hbm; subst hbm
            exact Or.inl rfl
    | assertFailed => rw [hc] at h; simp [Run.bind] at h
    | undefined => rw [hc] at h; simp [Run.bind] at h
    | outOfFuel => rw [hc] at h; simp [Run.bind] at h

/-- C26: after every sequence of `Allocate` / `AllocateAligned` calls on a new
arena that returns, `MemoryUsage()` is the sum over the blocks of the arena of
block size + pointer size, and every block is either a block of 4096 bytes or a
block of more than 1024 bytes whose size is the size requested by one of the
calls. -/
theorem Arena.MemoryUsage_sum (ptrSize : Nat) (cs : List ArenaCall)
    (rs : List (Nat × Nat)) (a : Arena)
    (hrun : Arena.runCalls ptrSize cs Arena.ctor [] = Run.returned (rs, a)) :
    a.MemoryUsage = (a.blocks_.map fun b => b.2 + ptrSize).sum ∧
      ∀ b ∈ a.blocks_, b.2 = Arena.kBlockSize ∨
        (Arena.kBlockSize / 4 < b.2 ∧ ∃ c ∈ cs, c.bytes = b.2) := by
  have h := Arena.runCalls_usage ptrSize (fun n => ∃ c ∈ cs, c.bytes = n) cs Arena.ctor []
    (rs, a) (fun c hc => ⟨c, hc, rfl⟩) rfl (fun b hb => by cases hb) hrun
  exact ⟨h.1, h.2⟩

/-- Witness for C26: five calls, three blocks. -/
theorem Arena.MemoryUsage_sum_witness :
    Arena.runCalls 8 [ArenaCall.Allocate 10 8192, ArenaCall.AllocateAligned 16 0,
        ArenaCall.AllocateAligned 5000 16384, ArenaCall.Allocate 4000 0,
        ArenaCall.Allocate 100 32768] Arena.ctor [] =
      Run.returned ([(8192, 10), (8208, 16), (16384, 5000), (8224, 4000), (32768, 100)],
        ⟨32868, 3996, [(8192, 4096), (16384, 5000), (32768, 4096)], 13216⟩) ∧
      (⟨32868, 3996, [(8192, 4096), (16384, 5000), (32768, 4096)], 13216⟩ : Arena).MemoryUsage =
        ([(8192, 4096), (16384, 5000), (32768, 4096)].map fun b => b.2 + 8).sum :=
  ⟨by decide,
    (Arena.MemoryUsage_sum 8 [ArenaCall.Allocate 10 8192, ArenaCall.AllocateAligned 16 0,
        ArenaCall.AllocateAligned 5000 16384, ArenaCall.Allocate 4000 0,
        ArenaCall.Allocate 100 32768]
      [(8192, 10), (8208, 16), (16384, 5000), (8224, 4000), (32768, 100)]
      ⟨32868, 3996, [(8192, 4096), (16384, 5000), (32768, 4096)], 13216⟩ (by decide)).1⟩

end tinydb
